import Mathlib

/-!
Verification of the CS-CLI native software rasterizer (`src/native/renderer_simd.c`).

The C code is shallowly embedded over exact rational arithmetic: every C `float`
becomes a `ℚ`, every byte (`uint8_t`) becomes a `ℕ`, buffers become total
functions from indices, and the global renderer state becomes an explicit
record threaded through the operations.  C float-to-integer casts (which
truncate toward zero and are only applied to nonnegative in-range values in
this code) are modelled by `Int.toNat ∘ Rat.floor`.
-/

namespace Renderer

/-- `NEAR_PLANE` threshold (0.05 in the C source). -/
def nearPlane : ℚ := 1/20

/-- C `(uint8_t)` cast of a float: truncation toward zero.  All call sites in
the renderer apply it to nonnegative values, where truncation is `⌊·⌋`. -/
def truncByte (x : ℚ) : ℕ := (⌊x⌋).toNat

/-- `ClipVert`: homogeneous clip-space position, UV, and RGB color. -/
structure ClipVert where
  cx : ℚ
  cy : ℚ
  cz : ℚ
  cw : ℚ
  u : ℚ
  v : ℚ
  r : ℕ
  g : ℕ
  b : ℕ
  deriving DecidableEq, Repr

/-- `lerp_clip_vert`: interpolate between two clip vertices at parameter `t`.
Color channels go through the C `(uint8_t)` cast. -/
def lerp_clip_vert (a c : ClipVert) (t : ℚ) : ClipVert where
  cx := a.cx + (c.cx - a.cx) * t
  cy := a.cy + (c.cy - a.cy) * t
  cz := a.cz + (c.cz - a.cz) * t
  cw := a.cw + (c.cw - a.cw) * t
  u := a.u + (c.u - a.u) * t
  v := a.v + (c.v - a.v) * t
  r := truncByte ((a.r : ℚ) + ((c.r : ℚ) - (a.r : ℚ)) * t)
  g := truncByte ((a.g : ℚ) + ((c.g : ℚ) - (a.g : ℚ)) * t)
  b := truncByte ((a.b : ℚ) + ((c.b : ℚ) - (a.b : ℚ)) * t)

/-- Number of vertices with `cw ≥ NEAR_PLANE` (the `inside_count` of
`clip_triangle_near_plane`). -/
def insideCnt (v0 v1 v2 : ClipVert) : ℕ :=
  (if nearPlane ≤ v0.cw then 1 else 0) +
  (if nearPlane ≤ v1.cw then 1 else 0) +
  (if nearPlane ≤ v2.cw then 1 else 0)

/-- The `inside_count == 1` branch body: one inside vertex `vi`, two outside
vertices `vo1, vo2`; emits one triangle. -/
def oneInside (vi vo1 vo2 : ClipVert) : List ClipVert :=
  [vi,
   lerp_clip_vert vi vo1 ((nearPlane - vi.cw) / (vo1.cw - vi.cw)),
   lerp_clip_vert vi vo2 ((nearPlane - vi.cw) / (vo2.cw - vi.cw))]

/-- The `inside_count == 2` branch body: outside vertex `vo`, inside vertices
`vi0, vi1`; emits two triangles forming a quad. -/
def twoInside (vo vi0 vi1 : ClipVert) : List ClipVert :=
  let n0 := lerp_clip_vert vi0 vo ((nearPlane - vi0.cw) / (vo.cw - vi0.cw))
  let n1 := lerp_clip_vert vi1 vo ((nearPlane - vi1.cw) / (vo.cw - vi1.cw))
  [vi0, vi1, n1, vi0, n1, n0]

/-- `clip_triangle_near_plane`: clip a triangle against `cw ≥ NEAR_PLANE`.
The returned list is the concatenation of the emitted triangles (0, 3 or 6
vertices). -/
def clip_triangle_near_plane (v0 v1 v2 : ClipVert) : List ClipVert :=
  if insideCnt v0 v1 v2 = 3 then [v0, v1, v2]
  else if insideCnt v0 v1 v2 = 0 then []
  else if insideCnt v0 v1 v2 = 1 then
    if nearPlane ≤ v0.cw then oneInside v0 v1 v2
    else if nearPlane ≤ v1.cw then oneInside v1 v2 v0
    else oneInside v2 v0 v1
  else
    if v0.cw < nearPlane then twoInside v0 v1 v2
    else if v1.cw < nearPlane then twoInside v1 v2 v0
    else twoInside v2 v0 v1

/-- The clip parameter `t = (NEAR_PLANE - cw_inside) / (cw_outside - cw_inside)`. -/
def tParam (vi vo : ClipVert) : ℚ := (nearPlane - vi.cw) / (vo.cw - vi.cw)

/-- The edge intersection point produced by the clipper on the edge from the
inside vertex `vi` to the outside vertex `vo`. -/
def edgePoint (vi vo : ClipVert) : ClipVert := lerp_clip_vert vi vo (tParam vi vo)

/-- Homogeneous orientation form of a clip-space triangle: the determinant of
the 3×3 matrix of rows `(cx, cy, cw)`.  For vertices with `cw > 0` its sign
agrees (up to the fixed screen-space y-flip) with the sign of the projected
screen-space signed area, so it captures winding orientation. -/
def orient3 (a c d : ClipVert) : ℚ :=
  a.cx * (c.cy * d.cw - c.cw * d.cy)
  - a.cy * (c.cx * d.cw - c.cw * d.cx)
  + a.cw * (c.cx * d.cy - c.cy * d.cx)

theorem edgePoint_cw (vi vo : ClipVert) (h : vi.cw ≠ vo.cw) :
    (edgePoint vi vo).cw = nearPlane := by
  have h' : vo.cw - vi.cw ≠ 0 := sub_ne_zero.mpr (Ne.symm h)
  simp only [edgePoint, lerp_clip_vert, tParam]
  field_simp

theorem tParam_nonneg (vi vo : ClipVert) (hi : nearPlane ≤ vi.cw)
    (ho : vo.cw < nearPlane) : 0 ≤ tParam vi vo := by
  unfold tParam
  exact div_nonneg_of_nonpos (by linarith) (by linarith)

theorem tParam_lt_one (vi vo : ClipVert) (hi : nearPlane ≤ vi.cw)
    (ho : vo.cw < nearPlane) : tParam vi vo < 1 := by
  unfold tParam
  have hden : vo.cw - vi.cw < 0 := by linarith
  rw [div_lt_iff_of_neg hden]
  linarith

theorem orient3_lerp_third (a c d : ClipVert) (t : ℚ) :
    orient3 a c (lerp_clip_vert c d t) = t * orient3 a c d := by
  simp only [orient3, lerp_clip_vert]
  ring

theorem orient3_lerp_both (a c d : ClipVert) (t1 t0 : ℚ) :
    orient3 a (lerp_clip_vert c d t1) (lerp_clip_vert a d t0)
      = t0 * (1 - t1) * orient3 a c d := by
  simp only [orient3, lerp_clip_vert]
  ring

theorem orient3_rot (a c d : ClipVert) : orient3 c d a = orient3 a c d := by
  simp only [orient3]; ring

/-- The componentwise description of an edge intersection point: position and
UV are exact linear interpolations at `tParam`, color channels are the linear
interpolation truncated to a byte. -/
def lerpSpecAt (vi vo p : ClipVert) : Prop :=
  p.cx = vi.cx + (vo.cx - vi.cx) * tParam vi vo ∧
  p.cy = vi.cy + (vo.cy - vi.cy) * tParam vi vo ∧
  p.cz = vi.cz + (vo.cz - vi.cz) * tParam vi vo ∧
  p.cw = vi.cw + (vo.cw - vi.cw) * tParam vi vo ∧
  p.u = vi.u + (vo.u - vi.u) * tParam vi vo ∧
  p.v = vi.v + (vo.v - vi.v) * tParam vi vo ∧
  p.r = truncByte ((vi.r : ℚ) + ((vo.r : ℚ) - (vi.r : ℚ)) * tParam vi vo) ∧
  p.g = truncByte ((vi.g : ℚ) + ((vo.g : ℚ) - (vi.g : ℚ)) * tParam vi vo) ∧
  p.b = truncByte ((vi.b : ℚ) + ((vo.b : ℚ) - (vi.b : ℚ)) * tParam vi vo)

theorem lerpSpecAt_edgePoint (vi vo : ClipVert) : lerpSpecAt vi vo (edgePoint vi vo) :=
  ⟨rfl, rfl, rfl, rfl, rfl, rfl, rfl, rfl, rfl⟩

/-- Conclusion of the one-inside clipping claim: the clipper emits exactly the
triangle consisting of the inside vertex followed by the two edge points
toward the outside vertices (in the code's cyclic order), each edge point has
`cw = NEAR_PLANE` and is the componentwise interpolation at `tParam`. -/
def OneInsideConcl (v0 v1 v2 : ClipVert) : Prop :=
  ∃ vi vo1 vo2 : ClipVert,
    ((vi, vo1, vo2) = (v0, v1, v2) ∨ (vi, vo1, vo2) = (v1, v2, v0) ∨
      (vi, vo1, vo2) = (v2, v0, v1)) ∧
    nearPlane ≤ vi.cw ∧ vo1.cw < nearPlane ∧ vo2.cw < nearPlane ∧
    clip_triangle_near_plane v0 v1 v2 = [vi, edgePoint vi vo1, edgePoint vi vo2] ∧
    (edgePoint vi vo1).cw = nearPlane ∧ (edgePoint vi vo2).cw = nearPlane ∧
    lerpSpecAt vi vo1 (edgePoint vi vo1) ∧ lerpSpecAt vi vo2 (edgePoint vi vo2)

/-- C1 (amended): a triangle with exactly one vertex inside the near plane is
clipped to exactly one triangle: the inside vertex plus the two edge
intersection points at `t = (ε - cw_in)/(cw_out - cw_in)`, whose `cw` is
exactly `ε = 0.05`; position and UV are linearly interpolated and color
channels are the linear interpolation truncated to bytes. -/
theorem clip_one_inside_correct (v0 v1 v2 : ClipVert)
    (h : (nearPlane ≤ v0.cw ∧ v1.cw < nearPlane ∧ v2.cw < nearPlane) ∨
         (nearPlane ≤ v1.cw ∧ v2.cw < nearPlane ∧ v0.cw < nearPlane) ∨
         (nearPlane ≤ v2.cw ∧ v0.cw < nearPlane ∧ v1.cw < nearPlane)) :
    OneInsideConcl v0 v1 v2 := by
  rcases h with ⟨hi, ho1, ho2⟩ | ⟨hi, ho1, ho2⟩ | ⟨hi, ho1, ho2⟩
  · have e1 : ¬ nearPlane ≤ v1.cw := not_le.mpr ho1
    have e2 : ¬ nearPlane ≤ v2.cw := not_le.mpr ho2
    have hcnt : insideCnt v0 v1 v2 = 1 := by simp [insideCnt, hi, e1, e2]
    refine ⟨v0, v1, v2, Or.inl rfl, hi, ho1, ho2, ?_,
      edgePoint_cw _ _ (ne_of_gt (lt_of_lt_of_le ho1 hi)),
      edgePoint_cw _ _ (ne_of_gt (lt_of_lt_of_le ho2 hi)),
      lerpSpecAt_edgePoint _ _, lerpSpecAt_edgePoint _ _⟩
    simp [clip_triangle_near_plane, hcnt, hi, oneInside, edgePoint, tParam]
  · have e1 : ¬ nearPlane ≤ v2.cw := not_le.mpr ho1
    have e2 : ¬ nearPlane ≤ v0.cw := not_le.mpr ho2
    have hcnt : insideCnt v0 v1 v2 = 1 := by simp [insideCnt, hi, e1, e2]
    refine ⟨v1, v2, v0, Or.inr (Or.inl rfl), hi, ho1, ho2, ?_,
      edgePoint_cw _ _ (ne_of_gt (lt_of_lt_of_le ho1 hi)),
      edgePoint_cw _ _ (ne_of_gt (lt_of_lt_of_le ho2 hi)),
      lerpSpecAt_edgePoint _ _, lerpSpecAt_edgePoint _ _⟩
    simp [clip_triangle_near_plane, hcnt, hi, e2, oneInside, edgePoint, tParam]
  · have e1 : ¬ nearPlane ≤ v0.cw := not_le.mpr ho1
    have e2 : ¬ nearPlane ≤ v1.cw := not_le.mpr ho2
    have hcnt : insideCnt v0 v1 v2 = 1 := by simp [insideCnt, hi, e1, e2]
    refine ⟨v2, v0, v1, Or.inr (Or.inr rfl), hi, ho1, ho2, ?_,
      edgePoint_cw _ _ (ne_of_gt (lt_of_lt_of_le ho1 hi)),
      edgePoint_cw _ _ (ne_of_gt (lt_of_lt_of_le ho2 hi)),
      lerpSpecAt_edgePoint _ _, lerpSpecAt_edgePoint _ _⟩
    simp [clip_triangle_near_plane, hcnt, e1, e2, oneInside, edgePoint, tParam]

/-- Witness input for `clip_one_inside_correct`. -/
def w1V0 : ClipVert := ⟨1, 2, 3, 1, 4, 5, 10, 20, 30⟩

/-- Witness input, outside vertex. -/
def w1V1 : ClipVert := ⟨0, 0, 0, 0, 0, 0, 0, 0, 0⟩

/-- Witness input, outside vertex. -/
def w1V2 : ClipVert := ⟨2, 0, 0, -1, 0, 0, 50, 50, 50⟩

/-- Witness for `clip_one_inside_correct` at a concrete input. -/
theorem clip_one_inside_correct_witness :
    (nearPlane ≤ w1V0.cw ∧ w1V1.cw < nearPlane ∧ w1V2.cw < nearPlane) ∧
      OneInsideConcl w1V0 w1V1 w1V2 := by
  have h : nearPlane ≤ w1V0.cw ∧ w1V1.cw < nearPlane ∧ w1V2.cw < nearPlane := by
    refine ⟨?_, ?_, ?_⟩ <;> norm_num [w1V0, w1V1, w1V2, nearPlane]
  exact ⟨h, clip_one_inside_correct w1V0 w1V1 w1V2 (Or.inl h)⟩

/-- Counterexample input for the literal color-interpolation reading of C1:
inside vertex with red 0 at `cw = 0.1`. -/
def cexV0 : ClipVert := ⟨0, 0, 0, 1/10, 0, 0, 0, 0, 0⟩

/-- Counterexample input: outside vertex with red 255 at `cw = 0`. -/
def cexV1 : ClipVert := ⟨0, 0, 0, 0, 0, 0, 255, 0, 0⟩

/-- Counterexample input: outside vertex. -/
def cexV2 : ClipVert := ⟨0, 0, 0, 0, 0, 0, 0, 0, 0⟩

/-- C1 counterexample: the clipper's emitted edge point does not carry the
exact linear interpolation of the color attribute.  Here `t = 1/2`, the exact
interpolation of red from 0 toward 255 is `127.5`, but the emitted vertex
stores the truncated byte 127. -/
theorem clip_color_not_exactly_linear :
    (((clip_triangle_near_plane cexV0 cexV1 cexV2).getD 1 cexV0).r : ℚ) ≠
      (cexV0.r : ℚ) + ((cexV1.r : ℚ) - (cexV0.r : ℚ)) * tParam cexV0 cexV1 := by
  have hfl : (⌊(0 : ℚ) + (255 - 0) * ((1/20 - 1/10) / (0 - 1/10))⌋ : ℤ) = 127 := by
    rw [Int.floor_eq_iff]
    norm_num
  have ht : Int.toNat 127 = 127 := rfl
  norm_num [clip_triangle_near_plane, insideCnt, oneInside, lerp_clip_vert, truncByte,
    tParam, cexV0, cexV1, cexV2, nearPlane, hfl, ht]

/-- Conclusion of the two-inside clipping claim: the clipper emits exactly two
triangles `(vi0, vi1, n1)` and `(vi0, n1, n0)` — the diagonal split of the
quad `(vi0, vi1, n1, n0)` formed by the two inside vertices and the two edge
intersection points, each of which lies exactly on `cw = NEAR_PLANE` — and the
homogeneous orientation form of each emitted triangle is a nonnegative
multiple (`t1`, resp. `t0·(1-t1)`, both in `[0,1)`) of that of the input
triangle, so the winding orientation is preserved. -/
def TwoInsideConcl (v0 v1 v2 : ClipVert) : Prop :=
  ∃ vo vi0 vi1 : ClipVert,
    ((vo, vi0, vi1) = (v0, v1, v2) ∨ (vo, vi0, vi1) = (v1, v2, v0) ∨
      (vo, vi0, vi1) = (v2, v0, v1)) ∧
    vo.cw < nearPlane ∧ nearPlane ≤ vi0.cw ∧ nearPlane ≤ vi1.cw ∧
    clip_triangle_near_plane v0 v1 v2 =
      [vi0, vi1, edgePoint vi1 vo, vi0, edgePoint vi1 vo, edgePoint vi0 vo] ∧
    (edgePoint vi0 vo).cw = nearPlane ∧ (edgePoint vi1 vo).cw = nearPlane ∧
    0 ≤ tParam vi0 vo ∧ tParam vi0 vo < 1 ∧
    0 ≤ tParam vi1 vo ∧ tParam vi1 vo < 1 ∧
    orient3 vi0 vi1 (edgePoint vi1 vo) = tParam vi1 vo * orient3 v0 v1 v2 ∧
    orient3 vi0 (edgePoint vi1 vo) (edgePoint vi0 vo) =
      tParam vi0 vo * (1 - tParam vi1 vo) * orient3 v0 v1 v2

/-- C2: a triangle with exactly two vertices inside the near plane is clipped
to exactly two triangles forming the quad of the two inside vertices and the
two edge intersection points (each with `cw = 0.05`), and each emitted
triangle's orientation form is a nonnegative multiple of the original
triangle's, preserving the winding orientation. -/
theorem clip_two_inside_correct (v0 v1 v2 : ClipVert)
    (h : (v0.cw < nearPlane ∧ nearPlane ≤ v1.cw ∧ nearPlane ≤ v2.cw) ∨
         (v1.cw < nearPlane ∧ nearPlane ≤ v2.cw ∧ nearPlane ≤ v0.cw) ∨
         (v2.cw < nearPlane ∧ nearPlane ≤ v0.cw ∧ nearPlane ≤ v1.cw)) :
    TwoInsideConcl v0 v1 v2 := by
  rcases h with ⟨ho, hi0, hi1⟩ | ⟨ho, hi0, hi1⟩ | ⟨ho, hi0, hi1⟩
  · have e0 : ¬ nearPlane ≤ v0.cw := not_le.mpr ho
    have hcnt : insideCnt v0 v1 v2 = 2 := by simp [insideCnt, e0, hi0, hi1]
    refine ⟨v0, v1, v2, Or.inl rfl, ho, hi0, hi1, ?_,
      edgePoint_cw _ _ (ne_of_gt (lt_of_lt_of_le ho hi0)),
      edgePoint_cw _ _ (ne_of_gt (lt_of_lt_of_le ho hi1)),
      tParam_nonneg _ _ hi0 ho, tParam_lt_one _ _ hi0 ho,
      tParam_nonneg _ _ hi1 ho, tParam_lt_one _ _ hi1 ho, ?_, ?_⟩
    · simp [clip_triangle_near_plane, hcnt, ho, twoInside, edgePoint, tParam]
    · rw [edgePoint, orient3_lerp_third, orient3_rot]
    · rw [edgePoint, edgePoint, orient3_lerp_both, orient3_rot]
  · have e1 : ¬ nearPlane ≤ v1.cw := not_le.mpr ho
    have e0' : ¬ v0.cw < nearPlane := not_lt.mpr hi1
    have hcnt : insideCnt v0 v1 v2 = 2 := by simp [insideCnt, e1, hi0, hi1]
    refine ⟨v1, v2, v0, Or.inr (Or.inl rfl), ho, hi0, hi1, ?_,
      edgePoint_cw _ _ (ne_of_gt (lt_of_lt_of_le ho hi0)),
      edgePoint_cw _ _ (ne_of_gt (lt_of_lt_of_le ho hi1)),
      tParam_nonneg _ _ hi0 ho, tParam_lt_one _ _ hi0 ho,
      tParam_nonneg _ _ hi1 ho, tParam_lt_one _ _ hi1 ho, ?_, ?_⟩
    · simp [clip_triangle_near_plane, hcnt, ho, e0', twoInside, edgePoint, tParam]
    · rw [edgePoint, orient3_lerp_third, orient3_rot, orient3_rot]
    · rw [edgePoint, edgePoint, orient3_lerp_both, orient3_rot, orient3_rot]
  · have e2 : ¬ nearPlane ≤ v2.cw := not_le.mpr ho
    have e0' : ¬ v0.cw < nearPlane := not_lt.mpr hi0
    have e1' : ¬ v1.cw < nearPlane := not_lt.mpr hi1
    have hcnt : insideCnt v0 v1 v2 = 2 := by simp [insideCnt, e2, hi0, hi1]
    refine ⟨v2, v0, v1, Or.inr (Or.inr rfl), ho, hi0, hi1, ?_,
      edgePoint_cw _ _ (ne_of_gt (lt_of_lt_of_le ho hi0)),
      edgePoint_cw _ _ (ne_of_gt (lt_of_lt_of_le ho hi1)),
      tParam_nonneg _ _ hi0 ho, tParam_lt_one _ _ hi0 ho,
      tParam_nonneg _ _ hi1 ho, tParam_lt_one _ _ hi1 ho, ?_, ?_⟩
    · simp [clip_triangle_near_plane, hcnt, e0', e1', twoInside, edgePoint, tParam]
    · rw [edgePoint, orient3_lerp_third]
    · rw [edgePoint, edgePoint, orient3_lerp_both]

/-- Witness input for `clip_two_inside_correct`, outside vertex. -/
def w2V0 : ClipVert := ⟨1, 1, 1, 0, 0, 0, 5, 6, 7⟩

/-- Witness input, inside vertex. -/
def w2V1 : ClipVert := ⟨2, 0, 1, 1, 1, 0, 8, 9, 10⟩

/-- Witness input, inside vertex. -/
def w2V2 : ClipVert := ⟨0, 3, 1, 2, 0, 1, 11, 12, 13⟩

/-- Witness for `clip_two_inside_correct` at a concrete input. -/
theorem clip_two_inside_correct_witness :
    (w2V0.cw < nearPlane ∧ nearPlane ≤ w2V1.cw ∧ nearPlane ≤ w2V2.cw) ∧
      TwoInsideConcl w2V0 w2V1 w2V2 := by
  have h : w2V0.cw < nearPlane ∧ nearPlane ≤ w2V1.cw ∧ nearPlane ≤ w2V2.cw := by
    refine ⟨?_, ?_, ?_⟩ <;> norm_num [w2V0, w2V1, w2V2, nearPlane]
  exact ⟨h, clip_two_inside_correct w2V0 w2V1 w2V2 (Or.inl h)⟩

/-- `g_ambient_light = 0.3f`. -/
def ambientLight : ℚ := 3/10

/-- `g_light_dir = {0.4319f, 0.8639f, 0.2592f}`. -/
def lightDir : ℚ × ℚ × ℚ := (4319/10000, 8639/10000, 2592/10000)

/-- The renderer's process-wide state (the `g_*` globals of the C file).
Nullable buffer pointers are modelled by an allocation flag beside a total
content function; contents of unallocated buffers are unobservable. -/
structure RState where
  width : ℕ                 -- g_width (stored validated, so ℕ)
  height : ℕ                -- g_height
  msaa : ℕ                  -- g_msaa_samples
  fbAlloc : Bool            -- g_framebuffer / g_depth_buffer non-null
  fb : ℕ → ℕ                -- g_framebuffer bytes
  depth : ℕ → ℚ             -- g_depth_buffer
  msaaAlloc : Bool          -- g_msaa_buffer / g_msaa_depth non-null
  msaaFb : ℕ → ℕ            -- g_msaa_buffer bytes
  msaaDepth : ℕ → ℚ         -- g_msaa_depth
  enableBackfaceCulling : Bool  -- g_enable_backface_culling
  enableTextures : Bool     -- g_enable_textures
  texBound : Bool           -- g_current_texture non-null
  texBufAlloc : Bool        -- g_texture_buffer non-null
  texBuf : ℕ → ℕ            -- g_texture_buffer bytes
  texBufSize : ℕ            -- g_texture_buffer_size
  texW : ℤ                  -- g_texture_width
  texH : ℤ                  -- g_texture_height

/-- The initial values of the globals at module load. -/
def initialState : RState where
  width := 0
  height := 0
  msaa := 1
  fbAlloc := false
  fb := fun _ => 0
  depth := fun _ => 0
  msaaAlloc := false
  msaaFb := fun _ => 0
  msaaDepth := fun _ => 0
  enableBackfaceCulling := false
  enableTextures := true
  texBound := false
  texBufAlloc := false
  texBuf := fun _ => 0
  texBufSize := 0
  texW := 0
  texH := 0

/-- `render_init`: validate dimensions, coerce the sample count, allocate and
initialize the buffers.  Allocation itself is assumed to succeed (allocation
failure is an OS condition outside the embedding).  On the validation error
path the state is returned untouched, as the C check precedes every free and
allocation. -/
def render_init (s : RState) (width height msaa : ℤ) :
    RState × Except String Bool :=
  if width ≤ 0 ∨ height ≤ 0 ∨ 4096 < width ∨ 4096 < height then
    (s, Except.error "Invalid dimensions (must be 1-4096)")
  else
    let m : ℤ := if msaa = 1 ∨ msaa = 4 ∨ msaa = 16 then msaa else 1
    ({ s with
        width := width.toNat
        height := height.toNat
        msaa := m.toNat
        fbAlloc := true
        fb := fun _ => 0
        depth := fun _ => 1
        msaaAlloc := decide (1 < m)
        msaaFb := if 1 < m then (fun _ => 0) else s.msaaFb
        msaaDepth := if 1 < m then (fun _ => 1) else s.msaaDepth },
      Except.ok true)

/-- `render_cleanup`: free every buffer and the texture copy, null the
pointers, and reset `g_texture_buffer_size`, `g_width`, `g_height`,
`g_msaa_samples`.  (`g_texture_width` / `g_texture_height` are not touched by
the C code.) -/
def render_cleanup (s : RState) : RState :=
  { s with
    fbAlloc := false
    msaaAlloc := false
    texBound := false
    texBufAlloc := false
    texBufSize := 0
    width := 0
    height := 0
    msaa := 1 }

/-- A color/depth buffer pair, as passed around by the row work functions. -/
abbrev Bufs := (ℕ → ℕ) × (ℕ → ℚ)

/-- The inner `for x` loop of `do_clear_rows` restricted to one row starting
at pixel index `rs`: write `r,g,b` into the three color bytes of pixel
`rs + x` and `1.0` into its depth, for `x = 0 .. n-1` ascending. -/
def clearCols (r g b rs : ℕ) : ℕ → Bufs → Bufs
  | 0, bufs => bufs
  | n+1, bufs =>
      let p := clearCols r g b rs n bufs
      (Function.update (Function.update (Function.update p.1 ((rs+n)*3) r)
          ((rs+n)*3+1) g) ((rs+n)*3+2) b,
       Function.update p.2 (rs+n) 1)

/-- The `for s` MSAA loop of `do_clear_rows` for one row: clear the same row
pattern in every sample plane, sample `sN` at offset `sN * pixelCount`. -/
def clearMsaaSamples (r g b rs pc w : ℕ) : ℕ → Bufs → Bufs
  | 0, bufs => bufs
  | sN+1, bufs => clearCols r g b (sN * pc + rs) w (clearMsaaSamples r g b rs pc w sN bufs)

/-- One iteration of the `for y` loop of `do_clear_rows`: clear row `y` of the
main buffers and, when MSAA is active, of every sample plane. -/
def clearRow (r g b w h msaa : ℕ) (msaaOn : Bool) (y : ℕ) (main ms : Bufs) :
    Bufs × Bufs :=
  let rs := y * w
  (clearCols r g b rs w main,
   if 1 < msaa ∧ msaaOn = true then clearMsaaSamples r g b rs (w * h) w msaa ms else ms)

/-- Rows `startRow .. startRow+n-1`, ascending. -/
def clearRowsLoop (r g b w h msaa : ℕ) (msaaOn : Bool) (startRow : ℕ) :
    ℕ → Bufs × Bufs → Bufs × Bufs
  | 0, bufs => bufs
  | n+1, bufs =>
      let p := clearRowsLoop r g b w h msaa msaaOn startRow n bufs
      clearRow r g b w h msaa msaaOn (startRow + n) p.1 p.2

/-- `do_clear_rows(start_row, end_row, r, g, b)`: guard on allocated buffers,
then clear rows `y ∈ [start_row, min end_row height)`. -/
def do_clear_rows (s : RState) (startRow endRow r g b : ℕ) : RState :=
  if s.fbAlloc = false then s
  else
    let p := clearRowsLoop r g b s.width s.height s.msaa s.msaaAlloc startRow
      (min endRow s.height - startRow) ((s.fb, s.depth), (s.msaaFb, s.msaaDepth))
    { s with fb := p.1.1, depth := p.1.2, msaaFb := p.2.1, msaaDepth := p.2.2 }

/-- `render_clear(r,g,b)`: error before `init`; otherwise dispatch a clear of
all rows `[0, height)` (the thread-pool row partition covers exactly this
range, so its effect equals the serial `do_clear_rows(0, height)`). -/
def render_clear (s : RState) (r g b : ℕ) : RState × Except String Unit :=
  if s.fbAlloc = false then (s, Except.error "Renderer not initialized")
  else (do_clear_rows s 0 s.height r g b, Except.ok ())

/-- The `r_sum`/`g_sum`/`b_sum` accumulation of `do_msaa_resolve_rows` for
channel `c` of pixel `i`, over the first `n` samples (ascending). -/
def sampleColorSum (mFb : ℕ → ℕ) (pc i c : ℕ) : ℕ → ℕ
  | 0 => 0
  | n+1 => sampleColorSum mFb pc i c n + mFb ((n * pc + i) * 3 + c)

/-- The `min_depth` accumulation of `do_msaa_resolve_rows` for pixel `i`:
starts at `1.0`, takes each sample's depth when strictly smaller. -/
def sampleMinDepth (mD : ℕ → ℚ) (pc i : ℕ) : ℕ → ℚ
  | 0 => 1
  | n+1 =>
      let m := sampleMinDepth mD pc i n
      if mD (n * pc + i) < m then mD (n * pc + i) else m

/-- The per-pixel body of `do_msaa_resolve_rows`: average each color channel
over the samples with truncating division, take the minimum depth. -/
def resolvePixel (mFb : ℕ → ℕ) (mD : ℕ → ℚ) (pc msaa i : ℕ) (bufs : Bufs) : Bufs :=
  (Function.update (Function.update (Function.update bufs.1
      (i*3) (sampleColorSum mFb pc i 0 msaa / msaa))
      (i*3+1) (sampleColorSum mFb pc i 1 msaa / msaa))
      (i*3+2) (sampleColorSum mFb pc i 2 msaa / msaa),
   Function.update bufs.2 i (sampleMinDepth mD pc i msaa))

/-- The inner `for x` loop of `do_msaa_resolve_rows` on the row starting at
pixel `rs`. -/
def resolveCols (mFb : ℕ → ℕ) (mD : ℕ → ℚ) (pc msaa rs : ℕ) : ℕ → Bufs → Bufs
  | 0, bufs => bufs
  | n+1, bufs => resolvePixel mFb mD pc msaa (rs + n) (resolveCols mFb mD pc msaa rs n bufs)

/-- The `for y` loop of `do_msaa_resolve_rows`, rows `startRow ..`. -/
def resolveRowsLoop (mFb : ℕ → ℕ) (mD : ℕ → ℚ) (pc msaa w : ℕ) (startRow : ℕ) :
    ℕ → Bufs → Bufs
  | 0, bufs => bufs
  | n+1, bufs =>
      resolveCols mFb mD pc msaa ((startRow + n) * w) w
        (resolveRowsLoop mFb mD pc msaa w startRow n bufs)

/-- `do_msaa_resolve_rows(start_row, end_row)`: guard, then resolve rows
`[start_row, min end_row height)` from the MSAA planes into the main
buffers. -/
def do_msaa_resolve_rows (s : RState) (startRow endRow : ℕ) : RState :=
  if s.fbAlloc = false ∨ s.msaaAlloc = false ∨ s.msaa ≤ 1 then s
  else
    let p := resolveRowsLoop s.msaaFb s.msaaDepth (s.width * s.height) s.msaa s.width
      startRow (min endRow s.height - startRow) (s.fb, s.depth)
    { s with fb := p.1, depth := p.2 }

/-- `resolveMSAA()`: silent no-op unless initialized with MSAA active;
otherwise dispatch a resolve of all rows `[0, height)`. -/
def render_resolve_msaa (s : RState) : RState :=
  if s.fbAlloc = false ∨ s.msaa ≤ 1 ∨ s.msaaAlloc = false then s
  else do_msaa_resolve_rows s 0 s.height

/-! ### Index arithmetic helpers -/

theorem rowcol_ne (w x x' y y' : ℕ) (hx : x < w) (hx' : x' < w) (hy : y ≠ y') :
    y * w + x ≠ y' * w + x' := by
  intro h
  apply hy
  have hw : 0 < w := lt_of_le_of_lt (Nat.zero_le x) hx
  have h1 : (x + w * y) / w = y := by
    rw [Nat.add_mul_div_left _ _ hw, Nat.div_eq_of_lt hx, Nat.zero_add]
  have h2 : (x' + w * y') / w = y' := by
    rw [Nat.add_mul_div_left _ _ hw, Nat.div_eq_of_lt hx', Nat.zero_add]
  have h3 : x + w * y = x' + w * y' := by
    rw [Nat.add_comm x, Nat.add_comm x', Nat.mul_comm w y, Nat.mul_comm w y']
    exact h
  rw [← h1, ← h2, h3]

theorem pix_lt {w h y x : ℕ} (hy : y < h) (hx : x < w) : y * w + x < w * h := by
  calc y * w + x < y * w + w := Nat.add_lt_add_left hx _
  _ = (y + 1) * w := by rw [Nat.succ_mul]
  _ ≤ h * w := Nat.mul_le_mul_right _ hy
  _ = w * h := Nat.mul_comm _ _

theorem sample_pix_ne (w h samp samp' y y' x x' : ℕ)
    (hx : x < w) (hx' : x' < w) (hy : y < h) (hy' : y' < h)
    (hne : samp ≠ samp' ∨ y ≠ y') :
    samp * (w * h) + (y * w + x) ≠ samp' * (w * h) + (y' * w + x') := by
  rcases hne with hs | hyy
  · exact rowcol_ne (w*h) _ _ _ _ (pix_lt hy hx) (pix_lt hy' hx') hs
  · intro h'
    rcases eq_or_ne samp samp' with rfl | hs
    · exact rowcol_ne w _ _ _ _ hx hx' hyy (Nat.add_left_cancel h')
    · exact rowcol_ne (w*h) _ _ _ _ (pix_lt hy hx) (pix_lt hy' hx') hs h'

theorem mul3_ne_forms {a c : ℕ} (h : a ≠ c) :
    (a*3 ≠ c*3 ∧ a*3 ≠ c*3+1 ∧ a*3 ≠ c*3+2) ∧
    (a*3+1 ≠ c*3 ∧ a*3+1 ≠ c*3+1 ∧ a*3+1 ≠ c*3+2) ∧
    (a*3+2 ≠ c*3 ∧ a*3+2 ≠ c*3+1 ∧ a*3+2 ≠ c*3+2) := by omega

/-! ### Lemmas about the clear pass -/

theorem clearCols_at (r g b rs : ℕ) (bufs : Bufs) :
    ∀ n x, x < n →
      (clearCols r g b rs n bufs).1 ((rs+x)*3) = r ∧
      (clearCols r g b rs n bufs).1 ((rs+x)*3+1) = g ∧
      (clearCols r g b rs n bufs).1 ((rs+x)*3+2) = b ∧
      (clearCols r g b rs n bufs).2 (rs+x) = 1 := by
  intro n
  induction n with
  | zero => intro x hx; omega
  | succ n ih =>
    intro x hx
    rcases Nat.lt_succ_iff_lt_or_eq.mp hx with h | rfl
    · obtain ⟨ih1, ih2, ih3, ih4⟩ := ih x h
      refine ⟨?_, ?_, ?_, ?_⟩ <;> simp only [clearCols]
      · rw [Function.update_noteq (by omega), Function.update_noteq (by omega),
          Function.update_noteq (by omega)]
        exact ih1
      · rw [Function.update_noteq (by omega), Function.update_noteq (by omega),
          Function.update_noteq (by omega)]
        exact ih2
      · rw [Function.update_noteq (by omega), Function.update_noteq (by omega),
          Function.update_noteq (by omega)]
        exact ih3
      · rw [Function.update_noteq (by omega)]
        exact ih4
    · refine ⟨?_, ?_, ?_, ?_⟩ <;> simp only [clearCols]
      · rw [Function.update_noteq (by omega), Function.update_noteq (by omega),
          Function.update_same]
      · rw [Function.update_noteq (by omega), Function.update_same]
      · rw [Function.update_same]
      · rw [Function.update_same]

theorem clearCols_fb_out (r g b rs : ℕ) (bufs : Bufs) (j : ℕ) :
    ∀ n, (∀ x < n, j ≠ (rs+x)*3 ∧ j ≠ (rs+x)*3+1 ∧ j ≠ (rs+x)*3+2) →
      (clearCols r g b rs n bufs).1 j = bufs.1 j := by
  intro n
  induction n with
  | zero => intro _; rfl
  | succ n ih =>
    intro hj
    obtain ⟨h1, h2, h3⟩ := hj n (Nat.lt_succ_self n)
    simp only [clearCols]
    rw [Function.update_noteq h3, Function.update_noteq h2, Function.update_noteq h1]
    exact ih fun x hx => hj x (Nat.lt_succ_of_lt hx)

theorem clearCols_depth_out (r g b rs : ℕ) (bufs : Bufs) (j : ℕ) :
    ∀ n, (∀ x < n, j ≠ rs+x) →
      (clearCols r g b rs n bufs).2 j = bufs.2 j := by
  intro n
  induction n with
  | zero => intro _; rfl
  | succ n ih =>
    intro hj
    simp only [clearCols]
    rw [Function.update_noteq (hj n (Nat.lt_succ_self n))]
    exact ih fun x hx => hj x (Nat.lt_succ_of_lt hx)

theorem clearMsaaSamples_at (r g b rs pc w : ℕ) (bufs : Bufs) (hb : rs + w ≤ pc) :
    ∀ nS, ∀ samp < nS, ∀ x < w,
      (clearMsaaSamples r g b rs pc w nS bufs).1 ((samp*pc+rs+x)*3) = r ∧
      (clearMsaaSamples r g b rs pc w nS bufs).1 ((samp*pc+rs+x)*3+1) = g ∧
      (clearMsaaSamples r g b rs pc w nS bufs).1 ((samp*pc+rs+x)*3+2) = b ∧
      (clearMsaaSamples r g b rs pc w nS bufs).2 (samp*pc+rs+x) = 1 := by
  intro nS
  induction nS with
  | zero => intro samp hs; omega
  | succ nS ih =>
    intro samp hs x hx
    simp only [clearMsaaSamples]
    rcases Nat.lt_succ_iff_lt_or_eq.mp hs with h | rfl
    · -- sample plane `samp` was written earlier; the plane `nS` writes miss it
      have hbase : ∀ x' < w, samp*pc + rs + x ≠ nS*pc + rs + x' := by
        intro x' hx'
        have hr := rowcol_ne pc (rs + x) (rs + x') samp nS
          (by omega) (by omega) (by omega)
        rw [Nat.add_assoc, Nat.add_assoc]
        exact hr
      obtain ⟨ih1, ih2, ih3, ih4⟩ := ih samp h x hx
      refine ⟨?_, ?_, ?_, ?_⟩
      · refine (clearCols_fb_out r g b (nS*pc+rs) _ _ w ?_).trans ih1
        intro x' hx'
        exact (mul3_ne_forms (hbase x' hx')).1
      · refine (clearCols_fb_out r g b (nS*pc+rs) _ _ w ?_).trans ih2
        intro x' hx'
        exact (mul3_ne_forms (hbase x' hx')).2.1
      · refine (clearCols_fb_out r g b (nS*pc+rs) _ _ w ?_).trans ih3
        intro x' hx'
        exact (mul3_ne_forms (hbase x' hx')).2.2
      · refine (clearCols_depth_out r g b (nS*pc+rs) _ _ w ?_).trans ih4
        intro x' hx'
        exact hbase x' hx'
    · -- the plane written by this step
      exact clearCols_at r g b (samp*pc+rs)
        (clearMsaaSamples r g b rs pc w samp bufs) w x hx

theorem clearMsaaSamples_fb_out (r g b rs pc w : ℕ) (bufs : Bufs) (j : ℕ) :
    ∀ nS, (∀ sN < nS, ∀ x < w,
        j ≠ (sN*pc+rs+x)*3 ∧ j ≠ (sN*pc+rs+x)*3+1 ∧ j ≠ (sN*pc+rs+x)*3+2) →
      (clearMsaaSamples r g b rs pc w nS bufs).1 j = bufs.1 j := by
  intro nS
  induction nS with
  | zero => intro _; rfl
  | succ nS ih =>
    intro hj
    simp only [clearMsaaSamples]
    refine (clearCols_fb_out r g b (nS*pc+rs) _ _ w ?_).trans
      (ih fun sN hs x hx => hj sN (Nat.lt_succ_of_lt hs) x hx)
    intro x hx
    exact hj nS (Nat.lt_succ_self nS) x hx

theorem clearMsaaSamples_depth_out (r g b rs pc w : ℕ) (bufs : Bufs) (j : ℕ) :
    ∀ nS, (∀ sN < nS, ∀ x < w, j ≠ sN*pc+rs+x) →
      (clearMsaaSamples r g b rs pc w nS bufs).2 j = bufs.2 j := by
  intro nS
  induction nS with
  | zero => intro _; rfl
  | succ nS ih =>
    intro hj
    simp only [clearMsaaSamples]
    refine (clearCols_depth_out r g b (nS*pc+rs) _ _ w ?_).trans
      (ih fun sN hs x hx => hj sN (Nat.lt_succ_of_lt hs) x hx)
    intro x hx
    exact hj nS (Nat.lt_succ_self nS) x hx

theorem clearRowsLoop_at (r g b w h msaa : ℕ) (msaaOn : Bool) (startRow : ℕ)
    (bufs : Bufs × Bufs) :
    ∀ n, startRow + n ≤ h → ∀ k < n, ∀ x < w,
      ((clearRowsLoop r g b w h msaa msaaOn startRow n bufs).1.1
          (((startRow+k)*w+x)*3) = r ∧
       (clearRowsLoop r g b w h msaa msaaOn startRow n bufs).1.1
          (((startRow+k)*w+x)*3+1) = g ∧
       (clearRowsLoop r g b w h msaa msaaOn startRow n bufs).1.1
          (((startRow+k)*w+x)*3+2) = b ∧
       (clearRowsLoop r g b w h msaa msaaOn startRow n bufs).1.2
          ((startRow+k)*w+x) = 1) ∧
      (1 < msaa ∧ msaaOn = true → ∀ samp < msaa,
        (clearRowsLoop r g b w h msaa msaaOn startRow n bufs).2.1
          ((samp*(w*h)+(startRow+k)*w+x)*3) = r ∧
        (clearRowsLoop r g b w h msaa msaaOn startRow n bufs).2.1
          ((samp*(w*h)+(startRow+k)*w+x)*3+1) = g ∧
        (clearRowsLoop r g b w h msaa msaaOn startRow n bufs).2.1
          ((samp*(w*h)+(startRow+k)*w+x)*3+2) = b ∧
        (clearRowsLoop r g b w h msaa msaaOn startRow n bufs).2.2
          (samp*(w*h)+(startRow+k)*w+x) = 1) := by
  intro n
  induction n with
  | zero => intro _ k hk; omega
  | succ n ih =>
    intro hle k hk x hx
    have hle' : startRow + n ≤ h := by omega
    simp only [clearRowsLoop, clearRow]
    rcases Nat.lt_succ_iff_lt_or_eq.mp hk with hkn | rfl
    · -- row startRow+k was cleared earlier; row startRow+n misses its indices
      obtain ⟨ihm, ihs⟩ := ih hle' k hkn x hx
      obtain ⟨ih1, ih2, ih3, ih4⟩ := ihm
      constructor
      · have hbase : ∀ x' < w, (startRow+k)*w+x ≠ (startRow+n)*w+x' := by
          intro x' hx'
          exact rowcol_ne w x x' (startRow+k) (startRow+n) hx hx' (by omega)
        refine ⟨?_, ?_, ?_, ?_⟩
        · refine (clearCols_fb_out r g b ((startRow+n)*w) _ _ w ?_).trans ih1
          intro x' hx'; exact (mul3_ne_forms (hbase x' hx')).1
        · refine (clearCols_fb_out r g b ((startRow+n)*w) _ _ w ?_).trans ih2
          intro x' hx'; exact (mul3_ne_forms (hbase x' hx')).2.1
        · refine (clearCols_fb_out r g b ((startRow+n)*w) _ _ w ?_).trans ih3
          intro x' hx'; exact (mul3_ne_forms (hbase x' hx')).2.2
        · refine (clearCols_depth_out r g b ((startRow+n)*w) _ _ w ?_).trans ih4
          intro x' hx'; exact hbase x' hx'
      · intro hact samp hsamp
        obtain ⟨is1, is2, is3, is4⟩ := ihs hact samp hsamp
        rw [if_pos hact]
        have hbase : ∀ sN < msaa, ∀ x' < w,
            samp*(w*h)+(startRow+k)*w+x ≠ sN*(w*h)+(startRow+n)*w+x' := by
          intro sN hs x' hx'
          have hr := sample_pix_ne w h samp sN (startRow+k) (startRow+n) x x'
            hx hx' (by omega) (by omega) (Or.inr (by omega))
          rw [Nat.add_assoc, Nat.add_assoc]
          exact hr
        refine ⟨?_, ?_, ?_, ?_⟩
        · refine (clearMsaaSamples_fb_out r g b ((startRow+n)*w) (w*h) w _ _ msaa ?_).trans is1
          intro sN hs x' hx'; exact (mul3_ne_forms (hbase sN hs x' hx')).1
        · refine (clearMsaaSamples_fb_out r g b ((startRow+n)*w) (w*h) w _ _ msaa ?_).trans is2
          intro sN hs x' hx'; exact (mul3_ne_forms (hbase sN hs x' hx')).2.1
        · refine (clearMsaaSamples_fb_out r g b ((startRow+n)*w) (w*h) w _ _ msaa ?_).trans is3
          intro sN hs x' hx'; exact (mul3_ne_forms (hbase sN hs x' hx')).2.2
        · refine (clearMsaaSamples_depth_out r g b ((startRow+n)*w) (w*h) w _ _ msaa ?_).trans is4
          intro sN hs x' hx'; exact hbase sN hs x' hx'
    · -- the row written by this step
      constructor
      · exact clearCols_at r g b ((startRow+k)*w) _ w x hx
      · intro hact samp hsamp
        rw [if_pos hact]
        have hb : (startRow+k)*w + w ≤ w*h := by
          calc (startRow+k)*w + w = (startRow+k+1)*w := (Nat.succ_mul _ _).symm
          _ ≤ h*w := Nat.mul_le_mul_right w (by omega)
          _ = w*h := Nat.mul_comm h w
        exact clearMsaaSamples_at r g b ((startRow+k)*w) (w*h) w _ hb msaa samp hsamp x hx

/-- C3: after a successful `init`, `clear(r,g,b)` sets every framebuffer pixel
to exactly `(r,g,b)` and every depth value to exactly `1.0`, and with MSAA
active it does the same in every sample plane. -/
theorem render_clear_spec (s : RState) (r g b : ℕ) (hfb : s.fbAlloc = true) :
    (∀ i < s.width * s.height,
      (render_clear s r g b).1.fb (i*3) = r ∧
      (render_clear s r g b).1.fb (i*3+1) = g ∧
      (render_clear s r g b).1.fb (i*3+2) = b ∧
      (render_clear s r g b).1.depth i = 1) ∧
    (1 < s.msaa → s.msaaAlloc = true →
      ∀ samp < s.msaa, ∀ i < s.width * s.height,
        (render_clear s r g b).1.msaaFb ((samp * (s.width * s.height) + i)*3) = r ∧
        (render_clear s r g b).1.msaaFb ((samp * (s.width * s.height) + i)*3+1) = g ∧
        (render_clear s r g b).1.msaaFb ((samp * (s.width * s.height) + i)*3+2) = b ∧
        (render_clear s r g b).1.msaaDepth (samp * (s.width * s.height) + i) = 1) := by
  have hnf : ¬ s.fbAlloc = false := by simp [hfb]
  have hkey : ∀ i < s.width * s.height, ∃ k x, k < s.height ∧ x < s.width ∧
      i = k * s.width + x := by
    intro i hi
    have hw : 0 < s.width := by
      rcases Nat.eq_zero_or_pos s.width with hz | hp
      · rw [hz] at hi; omega
      · exact hp
    refine ⟨i / s.width, i % s.width, ?_, Nat.mod_lt _ hw, ?_⟩
    · rw [Nat.div_lt_iff_lt_mul hw]
      calc i < s.width * s.height := hi
      _ = s.height * s.width := Nat.mul_comm _ _
    · rw [Nat.mul_comm, Nat.div_add_mod]
  have hloop := clearRowsLoop_at r g b s.width s.height s.msaa s.msaaAlloc 0
    ((s.fb, s.depth), (s.msaaFb, s.msaaDepth)) s.height (by omega)
  constructor
  · intro i hi
    obtain ⟨k, x, hk, hx, rfl⟩ := hkey i hi
    have h1 := (hloop k hk x hx).1
    simp only [Nat.zero_add] at h1
    simp only [render_clear, do_clear_rows, if_neg hnf, Nat.min_self, Nat.sub_zero]
    exact h1
  · intro hm hal samp hsamp i hi
    obtain ⟨k, x, hk, hx, rfl⟩ := hkey i hi
    have h2 := (hloop k hk x hx).2 ⟨hm, hal⟩ samp hsamp
    simp only [Nat.zero_add] at h2
    simp only [render_clear, do_clear_rows, if_neg hnf, Nat.min_self, Nat.sub_zero]
    have hassoc : samp * (s.width * s.height) + (k * s.width + x) =
        samp * (s.width * s.height) + k * s.width + x := by
      rw [Nat.add_assoc]
    rw [hassoc]
    exact h2

/-! ### The scanline rasterizer -/

/-- Texture context: `g_current_texture` (bound flag + bytes) and its
dimensions. -/
structure TexCtx where
  bound : Bool
  buf : ℕ → ℕ
  w : ℤ
  h : ℤ

/-- `sample_texture(u, v)`: wrap the UVs by floor-subtraction, convert to
texel coordinates (truncation, then `%` with a negative fixup that cannot fire
for the nonnegative wrapped values), and read the RGB texel; grey `(200,200,
200)` without a texture. -/
def sample_texture (t : TexCtx) (u v : ℚ) : ℕ × ℕ × ℕ :=
  if t.bound = false ∨ t.w ≤ 0 ∨ t.h ≤ 0 then (200, 200, 200)
  else
    let u' := u - ⌊u⌋
    let v' := v - ⌊v⌋
    let tx0 : ℤ := ⌊u' * t.w⌋ % t.w
    let ty0 : ℤ := ⌊v' * t.h⌋ % t.h
    let tx : ℤ := if tx0 < 0 then tx0 + t.w else tx0
    let ty : ℤ := if ty0 < 0 then ty0 + t.h else ty0
    let idx : ℕ := ((ty * t.w + tx) * 3).toNat
    (t.buf idx, t.buf (idx + 1), t.buf (idx + 2))

/-- `(uint8_t)CLAMP(x, 0, 255)`: clamp then truncate toward zero (the clamped
value is nonnegative, so truncation is `⌊·⌋`). -/
def clampByte (x : ℚ) : ℕ := (⌊min (max x 0) 255⌋).toNat

/-- The arguments of `rasterize_triangle_textured`, together with the globals
it reads (`g_width`, `g_height`, `g_enable_textures`, the texture) and the
pixel offset of the target buffer slice inside the full buffer (0 for the main
buffers, `sampleIndex * width * height` for an MSAA plane). -/
structure RasterArgs where
  x0 : ℚ
  y0 : ℚ
  z0 : ℚ
  w0 : ℚ
  u0 : ℚ
  v0 : ℚ
  x1 : ℚ
  y1 : ℚ
  z1 : ℚ
  w1 : ℚ
  u1 : ℚ
  v1 : ℚ
  x2 : ℚ
  y2 : ℚ
  z2 : ℚ
  w2 : ℚ
  u2 : ℚ
  v2 : ℚ
  baseR : ℕ
  baseG : ℕ
  baseB : ℕ
  lightFactor : ℚ
  stride : ℕ
  off : ℕ
  gw : ℕ
  gh : ℕ
  texturesEnabled : Bool
  tex : TexCtx

/-- Bounding box, clamped to the screen. -/
def minXa (a : RasterArgs) : ℤ := max ⌊min (min a.x0 a.x1) a.x2⌋ 0

/-- Bounding box, clamped to the screen. -/
def maxXa (a : RasterArgs) : ℤ := min ⌈max (max a.x0 a.x1) a.x2⌉ ((a.gw : ℤ) - 1)

/-- Bounding box, clamped to the screen. -/
def minYa (a : RasterArgs) : ℤ := max ⌊min (min a.y0 a.y1) a.y2⌋ 0

/-- Bounding box, clamped to the screen. -/
def maxYa (a : RasterArgs) : ℤ := min ⌈max (max a.y0 a.y1) a.y2⌉ ((a.gh : ℤ) - 1)

/-- Twice the signed triangle area: `dx01 * (y2 - y0) - dy01 * (x2 - x0)`. -/
def area2 (a : RasterArgs) : ℚ :=
  (a.x1 - a.x0) * (a.y2 - a.y0) - (a.y1 - a.y0) * (a.x2 - a.x0)

/-- Edge function `e0` at the pixel center of `(px, py)`. -/
def edgeE0 (a : RasterArgs) (px py : ℤ) : ℚ :=
  (a.x2 - a.x1) * ((py + 1/2) - a.y1) - (a.y2 - a.y1) * ((px + 1/2) - a.x1)

/-- Edge function `e1` at the pixel center of `(px, py)`. -/
def edgeE1 (a : RasterArgs) (px py : ℤ) : ℚ :=
  (a.x0 - a.x2) * ((py + 1/2) - a.y2) - (a.y0 - a.y2) * ((px + 1/2) - a.x2)

/-- Edge function `e2` at the pixel center of `(px, py)`. -/
def edgeE2 (a : RasterArgs) (px py : ℤ) : ℚ :=
  (a.x1 - a.x0) * ((py + 1/2) - a.y0) - (a.y1 - a.y0) * ((px + 1/2) - a.x0)

/-- The half-plane inside test `e0 ≥ -0.001 ∧ e1 ≥ -0.001 ∧ e2 ≥ -0.001`. -/
def insideAt (a : RasterArgs) (px py : ℤ) : Prop :=
  -(1/1000) ≤ edgeE0 a px py ∧ -(1/1000) ≤ edgeE1 a px py ∧ -(1/1000) ≤ edgeE2 a px py

instance (a : RasterArgs) (px py : ℤ) : Decidable (insideAt a px py) := by
  unfold insideAt; infer_instance

/-- Barycentric weight of vertex 0: `e0 * (1 / area)`. -/
def bary0 (a : RasterArgs) (px py : ℤ) : ℚ := edgeE0 a px py * (1 / area2 a)

/-- Barycentric weight of vertex 1: `e1 * (1 / area)`. -/
def bary1 (a : RasterArgs) (px py : ℤ) : ℚ := edgeE1 a px py * (1 / area2 a)

/-- The linearly interpolated depth at the pixel center. -/
def interpDepth (a : RasterArgs) (px py : ℤ) : ℚ :=
  bary0 a px py * a.z0 + bary1 a px py * a.z1 +
    (1 - bary0 a px py - bary1 a px py) * a.z2

/-- The flat buffer pixel index `off + py * stride + px`. -/
def idxOf (a : RasterArgs) (px py : ℤ) : ℕ := a.off + (py * (a.stride : ℤ) + px).toNat

/-- The color written at a covered pixel: perspective-correct texture sample
times the light factor when texturing applies, else the flat base color times
the light factor; each channel clamped to a byte. -/
def pixColor (a : RasterArgs) (px py : ℤ) : ℕ × ℕ × ℕ :=
  if a.texturesEnabled = true ∧ a.tex.bound = true then
    let b2 := 1 - bary0 a px py - bary1 a px py
    let interpInvW := bary0 a px py * (1/a.w0) + bary1 a px py * (1/a.w1) + b2 * (1/a.w2)
    let interpUW := bary0 a px py * (a.u0 * (1/a.w0)) +
      bary1 a px py * (a.u1 * (1/a.w1)) + b2 * (a.u2 * (1/a.w2))
    let interpVW := bary0 a px py * (a.v0 * (1/a.w0)) +
      bary1 a px py * (a.v1 * (1/a.w1)) + b2 * (a.v2 * (1/a.w2))
    let t := sample_texture a.tex (interpUW / interpInvW) (interpVW / interpInvW)
    (clampByte ((t.1 : ℚ) * a.lightFactor),
     clampByte ((t.2.1 : ℚ) * a.lightFactor),
     clampByte ((t.2.2 : ℚ) * a.lightFactor))
  else
    (clampByte ((a.baseR : ℚ) * a.lightFactor),
     clampByte ((a.baseG : ℚ) * a.lightFactor),
     clampByte ((a.baseB : ℚ) * a.lightFactor))

/-- Write an RGB triple into the three bytes of pixel `i`. -/
def writeColor3 (f : ℕ → ℕ) (i : ℕ) (c : ℕ × ℕ × ℕ) : ℕ → ℕ :=
  Function.update (Function.update (Function.update f (i*3) c.1) (i*3+1) c.2.1)
    (i*3+2) c.2.2

/-- The accepted-fragment write: color bytes and depth of pixel `(px,py)`. -/
def writePix (a : RasterArgs) (px py : ℤ) (bufs : Bufs) : Bufs :=
  (writeColor3 bufs.1 (idxOf a px py) (pixColor a px py),
   Function.update bufs.2 (idxOf a px py) (interpDepth a px py))

/-- The per-pixel body of `rasterize_triangle_textured`: inside test, then the
strict `depth < depth_buf[idx]` depth test, then write. -/
def pixStep (a : RasterArgs) (bufs : Bufs) (p : ℤ × ℤ) : Bufs :=
  if insideAt a p.1 p.2 then
    if interpDepth a p.1 p.2 < bufs.2 (idxOf a p.1 p.2) then writePix a p.1 p.2 bufs
    else bufs
  else bufs

/-- Integer range `[lo, hi]` as a list, ascending. -/
def pixRange (lo hi : ℤ) : List ℤ :=
  (List.range (hi + 1 - lo).toNat).map (fun k : ℕ => lo + (k : ℤ))

/-- The row-major pixel traversal of the clamped bounding box. -/
def pixList (a : RasterArgs) : List (ℤ × ℤ) :=
  (pixRange (minYa a) (maxYa a)).flatMap fun py =>
    (pixRange (minXa a) (maxXa a)).map fun px => (px, py)

/-- `rasterize_triangle_textured`: discard degenerate triangles
(`|2·area| < 0.0001`), then process every bounding-box pixel in row-major
order. -/
def rasterize_triangle_textured (a : RasterArgs) (bufs : Bufs) : Bufs :=
  if |area2 a| < 1/10000 then bufs
  else (pixList a).foldl (pixStep a) bufs

/-! ### Lemmas about the rasterizer: the depth test and idempotence -/

theorem writePix_fb_out (a : RasterArgs) (px py : ℤ) (bufs : Bufs) (j : ℕ)
    (hj : j ≠ (idxOf a px py)*3 ∧ j ≠ (idxOf a px py)*3+1 ∧ j ≠ (idxOf a px py)*3+2) :
    (writePix a px py bufs).1 j = bufs.1 j := by
  simp only [writePix, writeColor3]
  rw [Function.update_noteq hj.2.2, Function.update_noteq hj.2.1,
    Function.update_noteq hj.1]

theorem writePix_depth_out (a : RasterArgs) (px py : ℤ) (bufs : Bufs) (j : ℕ)
    (hj : j ≠ idxOf a px py) :
    (writePix a px py bufs).2 j = bufs.2 j := by
  simp only [writePix]
  rw [Function.update_noteq hj]

theorem pixStep_depth_out (a : RasterArgs) (bufs : Bufs) (p : ℤ × ℤ) (j : ℕ)
    (hj : j ≠ idxOf a p.1 p.2) :
    (pixStep a bufs p).2 j = bufs.2 j := by
  unfold pixStep
  split
  · split
    · exact writePix_depth_out a p.1 p.2 bufs j hj
    · rfl
  · rfl

theorem pixStep_fb_out (a : RasterArgs) (bufs : Bufs) (p : ℤ × ℤ) (j : ℕ)
    (hj : j ≠ (idxOf a p.1 p.2)*3 ∧ j ≠ (idxOf a p.1 p.2)*3+1 ∧
      j ≠ (idxOf a p.1 p.2)*3+2) :
    (pixStep a bufs p).1 j = bufs.1 j := by
  unfold pixStep
  split
  · split
    · exact writePix_fb_out a p.1 p.2 bufs j hj
    · rfl
  · rfl

theorem pixStep_idem (a : RasterArgs) (bufs : Bufs) (p : ℤ × ℤ) :
    pixStep a (pixStep a bufs p) p = pixStep a bufs p := by
  by_cases hin : insideAt a p.1 p.2
  · by_cases hlt : interpDepth a p.1 p.2 < bufs.2 (idxOf a p.1 p.2)
    · have h1 : pixStep a bufs p = writePix a p.1 p.2 bufs := by
        rw [pixStep, if_pos hin, if_pos hlt]
      have h2 : (writePix a p.1 p.2 bufs).2 (idxOf a p.1 p.2) =
          interpDepth a p.1 p.2 := by
        simp [writePix]
      rw [h1, pixStep, if_pos hin, h2, if_neg (lt_irrefl _)]
    · have h1 : pixStep a bufs p = bufs := by
        rw [pixStep, if_pos hin, if_neg hlt]
      rw [h1, pixStep, if_pos hin, if_neg hlt]
  · rw [pixStep, if_neg hin, pixStep, if_neg hin]

theorem writeColor3_comm (f : ℕ → ℕ) (i j : ℕ) (c d : ℕ × ℕ × ℕ) (hne : i ≠ j) :
    writeColor3 (writeColor3 f i c) j d = writeColor3 (writeColor3 f j d) i c := by
  funext x
  obtain ⟨⟨f1, f2, f3⟩, ⟨f4, f5, f6⟩, ⟨f7, f8, f9⟩⟩ := mul3_ne_forms hne
  simp only [writeColor3, Function.update_apply]
  split_ifs <;> first | rfl | omega

theorem writePix_comm (a : RasterArgs) (p q : ℤ × ℤ) (bufs : Bufs)
    (hne : idxOf a p.1 p.2 ≠ idxOf a q.1 q.2) :
    writePix a q.1 q.2 (writePix a p.1 p.2 bufs) =
      writePix a p.1 p.2 (writePix a q.1 q.2 bufs) := by
  simp only [writePix, Prod.mk.injEq]
  exact ⟨writeColor3_comm bufs.1 _ _ _ _ hne, Function.update_comm hne _ _ _⟩

theorem pixStep_comm (a : RasterArgs) (bufs : Bufs) (p q : ℤ × ℤ)
    (hne : idxOf a p.1 p.2 ≠ idxOf a q.1 q.2) :
    pixStep a (pixStep a bufs p) q = pixStep a (pixStep a bufs q) p := by
  by_cases hp : insideAt a p.1 p.2
  · by_cases hq : insideAt a q.1 q.2
    · by_cases hltp : interpDepth a p.1 p.2 < bufs.2 (idxOf a p.1 p.2)
      · have e1 : pixStep a bufs p = writePix a p.1 p.2 bufs := by
          rw [pixStep, if_pos hp, if_pos hltp]
        by_cases hltq : interpDepth a q.1 q.2 < bufs.2 (idxOf a q.1 q.2)
        · -- both accepted: disjoint writes commute
          have e2 : pixStep a bufs q = writePix a q.1 q.2 bufs := by
            rw [pixStep, if_pos hq, if_pos hltq]
          have hq' : interpDepth a q.1 q.2 <
              (writePix a p.1 p.2 bufs).2 (idxOf a q.1 q.2) := by
            rw [writePix_depth_out a p.1 p.2 bufs _ (Ne.symm hne)]
            exact hltq
          have hp' : interpDepth a p.1 p.2 <
              (writePix a q.1 q.2 bufs).2 (idxOf a p.1 p.2) := by
            rw [writePix_depth_out a q.1 q.2 bufs _ hne]
            exact hltp
          rw [e1, e2, pixStep, if_pos hq, if_pos hq', pixStep, if_pos hp, if_pos hp']
          exact writePix_comm a p q bufs hne
        · -- q rejected both ways
          have e2 : pixStep a bufs q = bufs := by
            rw [pixStep, if_pos hq, if_neg hltq]
          have hq' : ¬ interpDepth a q.1 q.2 <
              (writePix a p.1 p.2 bufs).2 (idxOf a q.1 q.2) := by
            rw [writePix_depth_out a p.1 p.2 bufs _ (Ne.symm hne)]
            exact hltq
          rw [e1, e2, e1, pixStep, if_pos hq, if_neg hq']
      · have e1 : pixStep a bufs p = bufs := by
          rw [pixStep, if_pos hp, if_neg hltp]
        by_cases hltq : interpDepth a q.1 q.2 < bufs.2 (idxOf a q.1 q.2)
        · -- p rejected both ways
          have e2 : pixStep a bufs q = writePix a q.1 q.2 bufs := by
            rw [pixStep, if_pos hq, if_pos hltq]
          have hp' : ¬ interpDepth a p.1 p.2 <
              (writePix a q.1 q.2 bufs).2 (idxOf a p.1 p.2) := by
            rw [writePix_depth_out a q.1 q.2 bufs _ hne]
            exact hltp
          rw [e1, e2, pixStep, if_pos hp, if_neg hp']
        · -- both rejected
          have e2 : pixStep a bufs q = bufs := by
            rw [pixStep, if_pos hq, if_neg hltq]
          rw [e1, e2, e1]
    · have e2 : ∀ c : Bufs, pixStep a c q = c := fun c => by rw [pixStep, if_neg hq]
      rw [e2, e2]
  · have e1 : ∀ c : Bufs, pixStep a c p = c := fun c => by rw [pixStep, if_neg hp]
    rw [e1, e1]

theorem foldl_pixStep_comm (a : RasterArgs) (p : ℤ × ℤ) :
    ∀ (l : List (ℤ × ℤ)), (∀ q ∈ l, idxOf a q.1 q.2 ≠ idxOf a p.1 p.2) →
      ∀ bufs, List.foldl (pixStep a) (pixStep a bufs p) l =
        pixStep a (List.foldl (pixStep a) bufs l) p := by
  intro l
  induction l with
  | nil => intro _ bufs; rfl
  | cons q l ih =>
    intro hl bufs
    simp only [List.foldl_cons]
    rw [pixStep_comm a bufs p q (Ne.symm (hl q (List.mem_cons_self q l)))]
    exact ih (fun r hr => hl r (List.mem_cons_of_mem q hr)) (pixStep a bufs q)

theorem foldl_pixStep_idem (a : RasterArgs) :
    ∀ (l : List (ℤ × ℤ)),
      l.Pairwise (fun p q => idxOf a p.1 p.2 ≠ idxOf a q.1 q.2) →
      ∀ bufs, List.foldl (pixStep a) (List.foldl (pixStep a) bufs l) l =
        List.foldl (pixStep a) bufs l := by
  intro l
  induction l with
  | nil => intro _ bufs; rfl
  | cons p l ih =>
    intro hl bufs
    obtain ⟨hp, hl'⟩ := List.pairwise_cons.mp hl
    simp only [List.foldl_cons]
    have h1 : pixStep a (List.foldl (pixStep a) (pixStep a bufs p) l) p =
        List.foldl (pixStep a) (pixStep a bufs p) l := by
      rw [← foldl_pixStep_comm a p l (fun q hq => Ne.symm (hp q hq)) (pixStep a bufs p),
        pixStep_idem]
    calc List.foldl (pixStep a) (pixStep a (List.foldl (pixStep a) (pixStep a bufs p) l) p) l
        = List.foldl (pixStep a) (List.foldl (pixStep a) (pixStep a bufs p) l) l := by
          rw [h1]
    _ = List.foldl (pixStep a) (pixStep a bufs p) l := ih hl' (pixStep a bufs p)

theorem rowcol_ne_int (s px px' py py' : ℤ) (h1 : 0 ≤ px) (h2 : px < s)
    (h1' : 0 ≤ px') (h2' : px' < s) (h3 : 0 ≤ py) (h3' : 0 ≤ py')
    (hpq : ¬ (px = px' ∧ py = py')) :
    (py * s + px).toNat ≠ (py' * s + px').toNat := by
  intro h
  have hs : 0 < s := lt_of_le_of_lt h1 h2
  have hnn : 0 ≤ py * s + px := by positivity
  have hnn' : 0 ≤ py' * s + px' := by positivity
  have heq : py * s + px = py' * s + px' := by
    rw [← Int.toNat_of_nonneg hnn, ← Int.toNat_of_nonneg hnn', h]
  have hx : px = px' := by
    have m1 : (px + py * s) % s = px := by
      rw [Int.add_mul_emod_self, Int.emod_eq_of_lt h1 h2]
    have m2 : (px' + py' * s) % s = px' := by
      rw [Int.add_mul_emod_self, Int.emod_eq_of_lt h1' h2']
    rw [← m1, ← m2]
    congr 1
    omega
  have hy : py = py' := by
    have : py * s = py' * s := by omega
    exact mul_right_cancel₀ (ne_of_gt hs) this
  exact hpq ⟨hx, hy⟩

theorem pixRange_mem {lo hi x : ℤ} (hmem : x ∈ pixRange lo hi) :
    lo ≤ x ∧ x ≤ hi := by
  obtain ⟨k, hk, rfl⟩ := List.mem_map.mp hmem
  have hk' := List.mem_range.mp hk
  omega

theorem pixRange_nodup (lo hi : ℤ) : (pixRange lo hi).Nodup := by
  unfold pixRange
  refine List.Nodup.map ?_ (List.nodup_range _)
  intro k1 k2 hk
  have h2 : lo + (k1 : ℤ) = lo + (k2 : ℤ) := hk
  omega

/-- The bounding-box pixel traversal visits pairwise distinct buffer cells
(when `stride = g_width`, as at every call site). -/
theorem pixList_pairwise (a : RasterArgs) (hs : a.stride = a.gw) :
    (pixList a).Pairwise (fun p q => idxOf a p.1 p.2 ≠ idxOf a q.1 q.2) := by
  have hxb : ∀ x ∈ pixRange (minXa a) (maxXa a), 0 ≤ x ∧ x < (a.stride : ℤ) := by
    intro x hx
    obtain ⟨hlo, hhi⟩ := pixRange_mem hx
    constructor
    · exact le_trans (le_max_right _ 0) hlo
    · have : x ≤ (a.gw : ℤ) - 1 := le_trans hhi (min_le_right _ _)
      rw [hs]; omega
  have hcell : ∀ px px' py py' : ℤ, 0 ≤ px → px < (a.stride : ℤ) →
      0 ≤ px' → px' < (a.stride : ℤ) → 0 ≤ py → 0 ≤ py' →
      ¬ (px = px' ∧ py = py') → idxOf a px py ≠ idxOf a px' py' := by
    intro px px' py py' b1 b2 b1' b2' b3 b3' hne
    unfold idxOf
    intro h
    exact rowcol_ne_int (a.stride : ℤ) px px' py py'
      b1 b2 b1' b2' b3 b3' hne (Nat.add_left_cancel h)
  unfold pixList
  have hyb : ∀ y ∈ pixRange (minYa a) (maxYa a), 0 ≤ y :=
    fun y hy => le_trans (le_max_right _ 0) (pixRange_mem hy).1
  have hrows : (pixRange (minYa a) (maxYa a)).Nodup := pixRange_nodup _ _
  revert hyb hrows
  generalize pixRange (minYa a) (maxYa a) = rows
  intro hyb hrows
  induction rows with
  | nil => exact List.Pairwise.nil
  | cons y ys ih =>
    rw [List.flatMap_cons, List.pairwise_append]
    obtain ⟨hyys, hysnd⟩ := List.pairwise_cons.mp hrows
    have hy0 : 0 ≤ y := hyb y (List.mem_cons_self y ys)
    refine ⟨?_, ?_, ?_⟩
    · -- within one row
      rw [List.pairwise_map]
      refine (pixRange_nodup (minXa a) (maxXa a)).imp_of_mem ?_
      intro px px' hpx hpx' hnepx
      exact hcell px px' y y (hxb px hpx).1 (hxb px hpx).2
        (hxb px' hpx').1 (hxb px' hpx').2 hy0 hy0
        (fun hcontra => hnepx hcontra.1)
    · -- the remaining rows
      exact ih (fun z hz => hyb z (List.mem_cons_of_mem y hz)) hysnd
    · -- across the first row and later rows
      intro p hp q hq
      obtain ⟨px, hpx, rfl⟩ := List.mem_map.mp hp
      obtain ⟨y', hy', hq'⟩ := List.mem_flatMap.mp hq
      obtain ⟨px', hpx', rfl⟩ := List.mem_map.mp hq'
      exact hcell px px' y y' (hxb px hpx).1 (hxb px hpx).2
        (hxb px' hpx').1 (hxb px' hpx').2 hy0
        (hyb y' (List.mem_cons_of_mem y hy'))
        (fun hcontra => hyys y' hy' hcontra.2)

/-- Conclusion of the strict depth test claim: an inside fragment whose
interpolated depth equals the stored depth is rejected (leaving the buffers
untouched), and consequently rasterizing the same triangle twice equals
rasterizing it once. -/
def DepthStrictConcl (a : RasterArgs) : Prop :=
  (∀ (bufs : Bufs) (px py : ℤ), insideAt a px py →
    interpDepth a px py = bufs.2 (idxOf a px py) →
    pixStep a bufs (px, py) = bufs) ∧
  ∀ bufs : Bufs,
    rasterize_triangle_textured a (rasterize_triangle_textured a bufs) =
      rasterize_triangle_textured a bufs

/-- C4: the depth test `depth < depth_buf[idx]` is strict, so an equal-depth
fragment is rejected and rasterizing the same triangle twice into the same
buffers leaves the first rasterization's colors and depths unchanged. -/
theorem rasterize_depth_strict (a : RasterArgs) (hs : a.stride = a.gw) :
    DepthStrictConcl a := by
  constructor
  · intro bufs px py hin heq
    rw [pixStep]
    simp only
    rw [if_pos hin, heq, if_neg (lt_irrefl _)]
  · intro bufs
    simp only [rasterize_triangle_textured]
    split_ifs with hdeg
    · rfl
    · exact foldl_pixStep_idem a (pixList a) (pixList_pairwise a hs) bufs

/-- Witness arguments for `rasterize_depth_strict`: an axis-aligned triangle
on a 4×4 target. -/
def depthWitnessArgs : RasterArgs where
  x0 := 0
  y0 := 0
  z0 := 0
  w0 := 1
  u0 := 0
  v0 := 0
  x1 := 3
  y1 := 0
  z1 := 0
  w1 := 1
  u1 := 0
  v1 := 0
  x2 := 0
  y2 := 3
  z2 := 0
  w2 := 1
  u2 := 0
  v2 := 0
  baseR := 100
  baseG := 150
  baseB := 200
  lightFactor := 1
  stride := 4
  off := 0
  gw := 4
  gh := 4
  texturesEnabled := false
  tex := ⟨false, fun _ => 0, 0, 0⟩

/-- Witness for `rasterize_depth_strict` at concrete arguments. -/
theorem rasterize_depth_strict_witness :
    depthWitnessArgs.stride = depthWitnessArgs.gw ∧ DepthStrictConcl depthWitnessArgs :=
  ⟨rfl, rasterize_depth_strict depthWitnessArgs rfl⟩

/-! ### What values the rasterizer writes into the color buffer -/

/-- Channel selector for a ClipVert color. -/
def clipChan (v : ClipVert) (c : ℕ) : ℕ := if c = 0 then v.r else if c = 1 then v.g else v.b

/-- Channel selector for the rasterizer's base color. -/
def baseChan (a : RasterArgs) (c : ℕ) : ℕ :=
  if c = 0 then a.baseR else if c = 1 then a.baseG else a.baseB

theorem pixStep_fb_untextured (a : RasterArgs)
    (hnt : ¬ (a.texturesEnabled = true ∧ a.tex.bound = true)) (bufs : Bufs)
    (p : ℤ × ℤ) (j : ℕ) :
    (pixStep a bufs p).1 j = bufs.1 j ∨
    (pixStep a bufs p).1 j = clampByte ((baseChan a (j % 3) : ℚ) * a.lightFactor) := by
  unfold pixStep
  split
  · split
    · simp only [writePix, writeColor3, pixColor, if_neg hnt, Function.update_apply]
      split_ifs with h1 h2 h3
      · right
        have : j % 3 = 2 := by omega
        rw [this]; rfl
      · right
        have : j % 3 = 1 := by omega
        rw [this]; rfl
      · right
        have : j % 3 = 0 := by omega
        rw [this]; rfl
      · left; rfl
    · left; rfl
  · left; rfl

theorem foldl_fb_untextured (a : RasterArgs)
    (hnt : ¬ (a.texturesEnabled = true ∧ a.tex.bound = true)) :
    ∀ (l : List (ℤ × ℤ)) (bufs : Bufs) (j : ℕ),
      (List.foldl (pixStep a) bufs l).1 j = bufs.1 j ∨
      (List.foldl (pixStep a) bufs l).1 j =
        clampByte ((baseChan a (j % 3) : ℚ) * a.lightFactor) := by
  intro l
  induction l with
  | nil => intro bufs j; exact Or.inl rfl
  | cons p l ih =>
    intro bufs j
    rw [List.foldl_cons]
    rcases ih (pixStep a bufs p) j with h | h
    · rw [h]
      exact pixStep_fb_untextured a hnt bufs p j
    · exact Or.inr h

/-- With texturing not applied, every byte the rasterizer changes is the
corresponding channel of the flat base color shaded by the light factor. -/
theorem rasterize_fb_untextured (a : RasterArgs)
    (hnt : ¬ (a.texturesEnabled = true ∧ a.tex.bound = true)) (bufs : Bufs) (j : ℕ) :
    (rasterize_triangle_textured a bufs).1 j = bufs.1 j ∨
    (rasterize_triangle_textured a bufs).1 j =
      clampByte ((baseChan a (j % 3) : ℚ) * a.lightFactor) := by
  unfold rasterize_triangle_textured
  split
  · exact Or.inl rfl
  · exact foldl_fb_untextured a hnt (pixList a) bufs j

theorem pixStep_fb_uniform_light (a : RasterArgs) (bufs : Bufs) (p : ℤ × ℤ) (j : ℕ) :
    (pixStep a bufs p).1 j = bufs.1 j ∨
    ∃ c : ℕ, (pixStep a bufs p).1 j = clampByte ((c : ℚ) * a.lightFactor) := by
  unfold pixStep
  split
  · split
    · simp only [writePix, writeColor3, Function.update_apply]
      split_ifs with h1 h2 h3
      · right
        unfold pixColor
        split <;> exact ⟨_, rfl⟩
      · right
        unfold pixColor
        split <;> exact ⟨_, rfl⟩
      · right
        unfold pixColor
        split <;> exact ⟨_, rfl⟩
      · left; rfl
    · left; rfl
  · left; rfl

/-- Every byte the rasterizer changes equals `clampByte (c * lightFactor)` for
some channel value `c` (texel or base color): the single light factor is
applied uniformly to every pixel the triangle covers. -/
theorem rasterize_fb_uniform_light (a : RasterArgs) :
    ∀ (l : List (ℤ × ℤ)) (bufs : Bufs) (j : ℕ),
      (List.foldl (pixStep a) bufs l).1 j = bufs.1 j ∨
      ∃ c : ℕ, (List.foldl (pixStep a) bufs l).1 j =
        clampByte ((c : ℚ) * a.lightFactor) := by
  intro l
  induction l with
  | nil => intro bufs j; exact Or.inl rfl
  | cons p l ih =>
    intro bufs j
    rw [List.foldl_cons]
    rcases ih (pixStep a bufs p) j with h | h
    · rw [h]
      exact pixStep_fb_uniform_light a bufs p j
    · exact Or.inr h

/-! ### `process_clipped_triangle` -/

/-- The texture context read from the renderer globals. -/
def texCtxOf (s : RState) : TexCtx := ⟨s.texBound, s.texBuf, s.texW, s.texH⟩

/-- NDC-to-screen x: `(ndcX + 1) * halfW`. -/
def screenX (cv : ClipVert) (halfW : ℚ) : ℚ := (cv.cx / cv.cw + 1) * halfW

/-- NDC-to-screen y: `(1 - ndcY) * halfH` (top-left origin). -/
def screenY (cv : ClipVert) (halfH : ℚ) : ℚ := (1 - cv.cy / cv.cw) * halfH

/-- The coarse frustum reject: all three NDC x (or y) beyond `[-1,1]` on the
same side. -/
def frustumCulled (cv0 cv1 cv2 : ClipVert) : Prop :=
  (cv0.cx/cv0.cw < -1 ∧ cv1.cx/cv1.cw < -1 ∧ cv2.cx/cv2.cw < -1) ∨
  (1 < cv0.cx/cv0.cw ∧ 1 < cv1.cx/cv1.cw ∧ 1 < cv2.cx/cv2.cw) ∨
  (cv0.cy/cv0.cw < -1 ∧ cv1.cy/cv1.cw < -1 ∧ cv2.cy/cv2.cw < -1) ∨
  (1 < cv0.cy/cv0.cw ∧ 1 < cv1.cy/cv1.cw ∧ 1 < cv2.cy/cv2.cw)

instance (cv0 cv1 cv2 : ClipVert) : Decidable (frustumCulled cv0 cv1 cv2) := by
  unfold frustumCulled; infer_instance

/-- The screen-space signed area used for backface culling / winding
normalization. -/
def signedArea2 (cv0 cv1 cv2 : ClipVert) (halfW halfH : ℚ) : ℚ :=
  (screenX cv1 halfW - screenX cv0 halfW) * (screenY cv2 halfH - screenY cv0 halfH) -
  (screenX cv2 halfW - screenX cv0 halfW) * (screenY cv1 halfH - screenY cv0 halfH)

/-- The rasterizer arguments built by `process_clipped_triangle`: screen
coordinates, with vertices 1 and 2 swapped when the signed area is negative,
base color from the FIRST vertex only, buffer offset 0. -/
def processArgs (s : RState) (cv0 cv1 cv2 : ClipVert) (lf halfW halfH : ℚ) :
    RasterArgs :=
  let sw := signedArea2 cv0 cv1 cv2 halfW halfH < 0
  { x0 := screenX cv0 halfW
    y0 := screenY cv0 halfH
    z0 := cv0.cz / cv0.cw
    w0 := cv0.cw
    u0 := cv0.u
    v0 := cv0.v
    x1 := if sw then screenX cv2 halfW else screenX cv1 halfW
    y1 := if sw then screenY cv2 halfH else screenY cv1 halfH
    z1 := if sw then cv2.cz / cv2.cw else cv1.cz / cv1.cw
    w1 := if sw then cv2.cw else cv1.cw
    u1 := if sw then cv2.u else cv1.u
    v1 := if sw then cv2.v else cv1.v
    x2 := if sw then screenX cv1 halfW else screenX cv2 halfW
    y2 := if sw then screenY cv1 halfH else screenY cv2 halfH
    z2 := if sw then cv1.cz / cv1.cw else cv2.cz / cv2.cw
    w2 := if sw then cv1.cw else cv2.cw
    u2 := if sw then cv1.u else cv2.u
    v2 := if sw then cv1.v else cv2.v
    baseR := cv0.r
    baseG := cv0.g
    baseB := cv0.b
    lightFactor := lf
    stride := s.width
    off := 0
    gw := s.width
    gh := s.height
    texturesEnabled := s.enableTextures
    tex := texCtxOf s }

/-- `msaa4_offsets`. -/
def msaa4_offsets : List (ℚ × ℚ) :=
  [(-1/8, -3/8), (3/8, -1/8), (1/8, 3/8), (-3/8, 1/8)]

/-- `msaa16_offsets`. -/
def msaa16_offsets : List (ℚ × ℚ) :=
  [(-3/8, -7/16), (-1/8, -5/16), (1/8, -3/16), (3/8, -1/16),
   (-7/16, -1/8), (-3/16, 1/16), (1/16, 3/16), (5/16, 5/16),
   (-5/16, 1/8), (-1/16, 1/4), (3/16, 3/8), (7/16, 7/16),
   (-1/4, 5/16), (0, 7/16), (1/4, -1/4), (7/16, -3/8)]

/-- One MSAA sample's rasterizer arguments: the sample offset is added to the
screen-space x/y only, and the target is the sample plane at pixel offset
`off`. -/
def sampleArgs (a : RasterArgs) (ox oy : ℚ) (off : ℕ) : RasterArgs :=
  { a with
      x0 := a.x0 + ox, y0 := a.y0 + oy,
      x1 := a.x1 + ox, y1 := a.y1 + oy,
      x2 := a.x2 + ox, y2 := a.y2 + oy,
      off := off }

/-- The `for s` MSAA loop of `process_clipped_triangle`: rasterize once per
sample into that sample's plane. -/
def msaaLoop (a : RasterArgs) (msaa pc : ℕ) : ℕ → Bufs → Bufs
  | 0, bufs => bufs
  | n+1, bufs =>
      let o := (if msaa = 4 then msaa4_offsets else msaa16_offsets).getD n (0, 0)
      rasterize_triangle_textured (sampleArgs a o.1 o.2 (n * pc))
        (msaaLoop a msaa pc n bufs)

/-- `process_clipped_triangle`: perspective divide, coarse frustum reject,
screen mapping, backface cull / winding normalization, then rasterization
(once, or once per MSAA sample).  Returns the new state and whether the
triangle was rendered. -/
def process_clipped_triangle (s : RState) (cv0 cv1 cv2 : ClipVert)
    (lf halfW halfH : ℚ) : RState × Bool :=
  if frustumCulled cv0 cv1 cv2 then (s, false)
  else if s.enableBackfaceCulling = true ∧ signedArea2 cv0 cv1 cv2 halfW halfH < 0 then
    (s, false)
  else
    let a := processArgs s cv0 cv1 cv2 lf halfW halfH
    if s.msaa = 1 then
      let p := rasterize_triangle_textured a (s.fb, s.depth)
      ({ s with fb := p.1, depth := p.2 }, true)
    else
      let p := msaaLoop a s.msaa (s.width * s.height) s.msaa (s.msaaFb, s.msaaDepth)
      ({ s with msaaFb := p.1, msaaDepth := p.2 }, true)

/-! ### `render_set_texture` -/

/-- `render_set_texture`: `none` unbinds the texture and zeroes its
dimensions.  Otherwise store the dimensions, grow the owned copy buffer when
needed (capacity never shrinks), and bind the copy only when the supplied
byte length covers `width*height*3`; otherwise leave no texture bound.
Dimensions are modelled for the nonnegative sizes the host supplies. -/
def render_set_texture (s : RState) (pixels : Option ((ℕ → ℕ) × ℕ)) (w h : ℤ) :
    RState :=
  match pixels with
  | none => { s with texBound := false, texW := 0, texH := 0 }
  | some (data, len) =>
      let s1 := { s with texW := w, texH := h }
      let needed : ℕ := (w * h * 3).toNat
      let s2 := if s1.texBufSize < needed then
          { s1 with texBufAlloc := true, texBuf := fun _ => 0, texBufSize := needed }
        else s1
      if s2.texBufAlloc = true ∧ needed ≤ len then
        { s2 with
            texBuf := fun i => if i < needed then data i else s2.texBuf i,
            texBound := true }
      else
        { s2 with texBound := false }

theorem msaaLoop_fb_untextured (a : RasterArgs)
    (hnt : ¬ (a.texturesEnabled = true ∧ a.tex.bound = true)) (msaa pc : ℕ) :
    ∀ (n : ℕ) (bufs : Bufs) (j : ℕ),
      (msaaLoop a msaa pc n bufs).1 j = bufs.1 j ∨
      (msaaLoop a msaa pc n bufs).1 j =
        clampByte ((baseChan a (j % 3) : ℚ) * a.lightFactor) := by
  intro n
  induction n with
  | zero => intro bufs j; exact Or.inl rfl
  | succ n ih =>
    intro bufs j
    simp only [msaaLoop]
    rcases rasterize_fb_untextured
        (sampleArgs a ((if msaa = 4 then msaa4_offsets else msaa16_offsets).getD n (0,0)).1
          ((if msaa = 4 then msaa4_offsets else msaa16_offsets).getD n (0,0)).2 (n * pc))
        hnt (msaaLoop a msaa pc n bufs) j with h | h
    · rw [h]
      exact ih bufs j
    · exact Or.inr h

/-- Shared helper: with texturing disabled or no texture bound, every byte
`process_clipped_triangle` changes — in the main framebuffer or in any MSAA
plane — is the matching channel of the FIRST vertex's color shaded by the
light factor. -/
theorem process_fb_flat (s : RState) (cv0 cv1 cv2 : ClipVert) (lf halfW halfH : ℚ)
    (hnt : s.enableTextures = false ∨ s.texBound = false) (j : ℕ) :
    ((process_clipped_triangle s cv0 cv1 cv2 lf halfW halfH).1.fb j = s.fb j ∨
      (process_clipped_triangle s cv0 cv1 cv2 lf halfW halfH).1.fb j =
        clampByte ((clipChan cv0 (j % 3) : ℚ) * lf)) ∧
    ((process_clipped_triangle s cv0 cv1 cv2 lf halfW halfH).1.msaaFb j = s.msaaFb j ∨
      (process_clipped_triangle s cv0 cv1 cv2 lf halfW halfH).1.msaaFb j =
        clampByte ((clipChan cv0 (j % 3) : ℚ) * lf)) := by
  have hnt' : ¬ ((processArgs s cv0 cv1 cv2 lf halfW halfH).texturesEnabled = true ∧
      (processArgs s cv0 cv1 cv2 lf halfW halfH).tex.bound = true) := by
    rcases hnt with h | h <;> simp [processArgs, texCtxOf, h]
  by_cases h1 : frustumCulled cv0 cv1 cv2
  · rw [process_clipped_triangle, if_pos h1]
    exact ⟨Or.inl rfl, Or.inl rfl⟩
  · by_cases h2 : s.enableBackfaceCulling = true ∧ signedArea2 cv0 cv1 cv2 halfW halfH < 0
    · rw [process_clipped_triangle, if_neg h1, if_pos h2]
      exact ⟨Or.inl rfl, Or.inl rfl⟩
    · by_cases h3 : s.msaa = 1
      · have hres : process_clipped_triangle s cv0 cv1 cv2 lf halfW halfH =
            ({ s with
                fb := (rasterize_triangle_textured
                  (processArgs s cv0 cv1 cv2 lf halfW halfH) (s.fb, s.depth)).1,
                depth := (rasterize_triangle_textured
                  (processArgs s cv0 cv1 cv2 lf halfW halfH) (s.fb, s.depth)).2 },
              true) := by
          rw [process_clipped_triangle, if_neg h1, if_neg h2]
          simp only [if_pos h3]
        rw [hres]
        refine ⟨?_, Or.inl rfl⟩
        exact rasterize_fb_untextured (processArgs s cv0 cv1 cv2 lf halfW halfH)
          hnt' (s.fb, s.depth) j
      · have hres : process_clipped_triangle s cv0 cv1 cv2 lf halfW halfH =
            ({ s with
                msaaFb := (msaaLoop (processArgs s cv0 cv1 cv2 lf halfW halfH)
                  s.msaa (s.width * s.height) s.msaa (s.msaaFb, s.msaaDepth)).1,
                msaaDepth := (msaaLoop (processArgs s cv0 cv1 cv2 lf halfW halfH)
                  s.msaa (s.width * s.height) s.msaa (s.msaaFb, s.msaaDepth)).2 },
              true) := by
          rw [process_clipped_triangle, if_neg h1, if_neg h2]
          simp only [if_neg h3]
        rw [hres]
        refine ⟨Or.inl rfl, ?_⟩
        exact msaaLoop_fb_untextured (processArgs s cv0 cv1 cv2 lf halfW halfH)
          hnt' s.msaa (s.width * s.height) s.msaa (s.msaaFb, s.msaaDepth) j

/-- Replace the color of a clip vertex. -/
def recolored (v : ClipVert) (r g b : ℕ) : ClipVert := { v with r := r, g := g, b := b }

/-- Conclusion of C10: the per-vertex colors of the second and third vertices
of a processed (post-clip) triangle never influence the output, and every byte
the triangle writes is the matching channel of the first vertex's color times
the light factor. -/
def FirstColorOnlyConcl (s : RState) (cv0 cv1 cv2 : ClipVert)
    (lf halfW halfH : ℚ) : Prop :=
  (∀ r1 g1 b1 r2 g2 b2 : ℕ,
    process_clipped_triangle s cv0 (recolored cv1 r1 g1 b1)
        (recolored cv2 r2 g2 b2) lf halfW halfH =
      process_clipped_triangle s cv0 cv1 cv2 lf halfW halfH) ∧
  ∀ j : ℕ,
    ((process_clipped_triangle s cv0 cv1 cv2 lf halfW halfH).1.fb j = s.fb j ∨
      (process_clipped_triangle s cv0 cv1 cv2 lf halfW halfH).1.fb j =
        clampByte ((clipChan cv0 (j % 3) : ℚ) * lf)) ∧
    ((process_clipped_triangle s cv0 cv1 cv2 lf halfW halfH).1.msaaFb j = s.msaaFb j ∨
      (process_clipped_triangle s cv0 cv1 cv2 lf halfW halfH).1.msaaFb j =
        clampByte ((clipChan cv0 (j % 3) : ℚ) * lf))

/-- C10: when texturing is not applied, a rasterized triangle is shaded from
the color of its first vertex only: recoloring the other two vertices does not
change the result, and every written byte is the first vertex's channel times
the light factor. -/
theorem process_first_vertex_color_only (s : RState) (cv0 cv1 cv2 : ClipVert)
    (lf halfW halfH : ℚ) (hnt : s.enableTextures = false ∨ s.texBound = false) :
    FirstColorOnlyConcl s cv0 cv1 cv2 lf halfW halfH :=
  ⟨fun _ _ _ _ _ _ => rfl, fun j => process_fb_flat s cv0 cv1 cv2 lf halfW halfH hnt j⟩

/-- Witness state for `process_first_vertex_color_only`. -/
def flatWitnessState : RState :=
  { initialState with
      width := 4, height := 4, fbAlloc := true, enableTextures := false }

/-- Witness clip vertex. -/
def wFlatCv0 : ClipVert := ⟨0, 0, 0, 1, 0, 0, 10, 20, 30⟩

/-- Witness clip vertex. -/
def wFlatCv1 : ClipVert := ⟨1, 0, 0, 1, 0, 0, 40, 50, 60⟩

/-- Witness clip vertex. -/
def wFlatCv2 : ClipVert := ⟨0, 1, 0, 1, 0, 0, 70, 80, 90⟩

/-- Witness for `process_first_vertex_color_only` at a concrete input. -/
theorem process_first_vertex_color_only_witness :
    (flatWitnessState.enableTextures = false ∨ flatWitnessState.texBound = false) ∧
    FirstColorOnlyConcl flatWitnessState wFlatCv0 wFlatCv1 wFlatCv2 1 2 2 :=
  ⟨Or.inl rfl,
   process_first_vertex_color_only flatWitnessState wFlatCv0 wFlatCv1 wFlatCv2 1 2 2
     (Or.inl rfl)⟩

/-- C9: `setTexture` with a pixel buffer shorter than `width*height*3` raises
no error (it returns normally) and binds no texture — `texBound` is false —
so every byte a subsequently processed triangle writes comes from the flat
base color path, not from texture sampling. -/
theorem set_texture_short_buffer (s : RState) (data : ℕ → ℕ) (len : ℕ) (w h : ℤ)
    (hlen : len < (w * h * 3).toNat) :
    (render_set_texture s (some (data, len)) w h).texBound = false ∧
    ∀ (cv0 cv1 cv2 : ClipVert) (lf halfW halfH : ℚ) (j : ℕ),
      ((process_clipped_triangle (render_set_texture s (some (data, len)) w h)
          cv0 cv1 cv2 lf halfW halfH).1.fb j =
        (render_set_texture s (some (data, len)) w h).fb j ∨
       (process_clipped_triangle (render_set_texture s (some (data, len)) w h)
          cv0 cv1 cv2 lf halfW halfH).1.fb j =
        clampByte ((clipChan cv0 (j % 3) : ℚ) * lf)) := by
  have hbound : (render_set_texture s (some (data, len)) w h).texBound = false := by
    have hne : ∀ s2 : RState,
        (if s2.texBufAlloc = true ∧ (w * h * 3).toNat ≤ len then
          { s2 with
              texBuf := fun i => if i < (w * h * 3).toNat then data i else s2.texBuf i,
              texBound := true }
        else { s2 with texBound := false }).texBound = false := by
      intro s2
      have hc : ¬ (s2.texBufAlloc = true ∧ (w * h * 3).toNat ≤ len) := by
        intro hcc
        exact absurd hcc.2 (by omega)
      rw [if_neg hc]
    simp only [render_set_texture]
    exact hne _
  refine ⟨hbound, ?_⟩
  intro cv0 cv1 cv2 lf halfW halfH j
  exact (process_fb_flat (render_set_texture s (some (data, len)) w h)
    cv0 cv1 cv2 lf halfW halfH (Or.inr hbound) j).1

/-- Witness texture data for `set_texture_short_buffer`. -/
def shortTexData : ℕ → ℕ := fun i => i + 1

/-- Witness for `set_texture_short_buffer` at a concrete input: a 2×2 texture
needs 12 bytes but only 5 are supplied. -/
theorem set_texture_short_buffer_witness :
    (5 < ((2 : ℤ) * 2 * 3).toNat) ∧
    (render_set_texture initialState (some (shortTexData, 5)) 2 2).texBound = false := by
  have h := set_texture_short_buffer initialState shortTexData 5 2 2 (by norm_num)
  exact ⟨by norm_num, h.1⟩

/-! ### `render_triangles_batch`: per-face lighting -/

/-- The typed-array inputs of `render_triangles_batch`, as total functions
with their element counts. -/
structure BatchIn where
  vertices : ℕ → ℚ
  indices : ℕ → ℕ
  indexCount : ℕ
  mvp : ℕ → ℚ
  colors : ℕ → ℕ
  normals : ℕ → ℚ
  normalCount : ℕ
  uvs : Option (ℕ → ℚ)
  uvCount : ℕ

/-- `transform_vertex`: multiply by the column-major 4×4 MVP matrix. -/
def transform_vertex (x y z : ℚ) (mvp : ℕ → ℚ) : ℚ × ℚ × ℚ × ℚ :=
  (mvp 0 * x + mvp 4 * y + mvp 8 * z + mvp 12,
   mvp 1 * x + mvp 5 * y + mvp 9 * z + mvp 13,
   mvp 2 * x + mvp 6 * y + mvp 10 * z + mvp 14,
   mvp 3 * x + mvp 7 * y + mvp 11 * z + mvp 15)

/-- The face normal of triangle `(i0,i1,i2)`: the sum of the supplied
per-vertex normals scaled by the source literal `0.333333` when the normal
buffer covers index `i2` (`normal_count >= (i2+1)*3`), else the cross product
of the two edge vectors. -/
def faceNormal (input : BatchIn) (i0 i1 i2 : ℕ) : ℚ × ℚ × ℚ :=
  if (i2 + 1) * 3 ≤ input.normalCount then
    ((input.normals (i0*3) + input.normals (i1*3) + input.normals (i2*3)) * (333333/1000000),
     (input.normals (i0*3+1) + input.normals (i1*3+1) + input.normals (i2*3+1)) * (333333/1000000),
     (input.normals (i0*3+2) + input.normals (i1*3+2) + input.normals (i2*3+2)) * (333333/1000000))
  else
    let e1x := input.vertices (i1*3) - input.vertices (i0*3)
    let e1y := input.vertices (i1*3+1) - input.vertices (i0*3+1)
    let e1z := input.vertices (i1*3+2) - input.vertices (i0*3+2)
    let e2x := input.vertices (i2*3) - input.vertices (i0*3)
    let e2y := input.vertices (i2*3+1) - input.vertices (i0*3+1)
    let e2z := input.vertices (i2*3+2) - input.vertices (i0*3+2)
    (e1y * e2z - e1z * e2y, e1z * e2x - e1x * e2z, e1x * e2y - e1y * e2x)

/-- Squared euclidean norm of a 3-vector. -/
def normSq (n : ℚ × ℚ × ℚ) : ℚ := n.1 * n.1 + n.2.1 * n.2.1 + n.2.2 * n.2.2

/-- Conditional normalization: scale by the inverse square root when
`len_sq > 0.0001`, else leave the vector as is.  The bit-twiddling
`fast_rsqrt` is not expressible over exact rationals, so the routine is a
parameter `rsq`. -/
def normalizedNormal (rsq : ℚ → ℚ) (n : ℚ × ℚ × ℚ) : ℚ × ℚ × ℚ :=
  if 1/10000 < normSq n then
    (n.1 * rsq (normSq n), n.2.1 * rsq (normSq n), n.2.2 * rsq (normSq n))
  else n

/-- The per-face scalar light factor:
`ambient + (1-ambient) * max(0, n·lightDir)`. -/
def lightFactorOf (rsq : ℚ → ℚ) (input : BatchIn) (i0 i1 i2 : ℕ) : ℚ :=
  let n := normalizedNormal rsq (faceNormal input i0 i1 i2)
  let nDotL := n.1 * lightDir.1 + n.2.1 * lightDir.2.1 + n.2.2 * lightDir.2.2
  ambientLight + (1 - ambientLight) * (if nDotL < 0 then 0 else nDotL)

/-- The `for ct` loop over the clipped triangles: process each consecutive
vertex triple, counting rendered triangles. -/
def processTris (lf halfW halfH : ℚ) : List ClipVert → RState → RState × ℕ
  | v0 :: v1 :: v2 :: rest, s =>
      let p := process_clipped_triangle s v0 v1 v2 lf halfW halfH
      let q := processTris lf halfW halfH rest p.1
      (q.1, (if p.2 then 1 else 0) + q.2)
  | _, s => (s, 0)

/-- The body of the per-triangle loop of `render_triangles_batch`: gather the
triangle's vertices, colors and (optional) UVs, transform to clip space, clip
against the near plane, compute the single per-face light factor, and process
every clipped triangle with it.  Returns the new state and the rendered
count. -/
def renderOneTriangle (rsq : ℚ → ℚ) (s : RState) (input : BatchIn) (t : ℕ)
    (halfW halfH : ℚ) : RState × ℕ :=
  let i0 := input.indices (t*3)
  let i1 := input.indices (t*3+1)
  let i2 := input.indices (t*3+2)
  let p0 := transform_vertex (input.vertices (i0*3)) (input.vertices (i0*3+1))
    (input.vertices (i0*3+2)) input.mvp
  let p1 := transform_vertex (input.vertices (i1*3)) (input.vertices (i1*3+1))
    (input.vertices (i1*3+2)) input.mvp
  let p2 := transform_vertex (input.vertices (i2*3)) (input.vertices (i2*3+1))
    (input.vertices (i2*3+2)) input.mvp
  let uvv : ℚ × ℚ × ℚ × ℚ × ℚ × ℚ :=
    match input.uvs with
    | some uv =>
        if (i2 + 1) * 2 ≤ input.uvCount then
          (uv (i0*2), uv (i0*2+1), uv (i1*2), uv (i1*2+1), uv (i2*2), uv (i2*2+1))
        else (0, 0, 0, 0, 0, 0)
    | none => (0, 0, 0, 0, 0, 0)
  let cv0 : ClipVert := ⟨p0.1, p0.2.1, p0.2.2.1, p0.2.2.2, uvv.1, uvv.2.1,
    input.colors (i0*3), input.colors (i0*3+1), input.colors (i0*3+2)⟩
  let cv1 : ClipVert := ⟨p1.1, p1.2.1, p1.2.2.1, p1.2.2.2, uvv.2.2.1, uvv.2.2.2.1,
    input.colors (i1*3), input.colors (i1*3+1), input.colors (i1*3+2)⟩
  let cv2 : ClipVert := ⟨p2.1, p2.2.1, p2.2.2.1, p2.2.2.2, uvv.2.2.2.2.1, uvv.2.2.2.2.2,
    input.colors (i2*3), input.colors (i2*3+1), input.colors (i2*3+2)⟩
  let clipped := clip_triangle_near_plane cv0 cv1 cv2
  if clipped.length = 0 then (s, 0)
  else processTris (lightFactorOf rsq input i0 i1 i2) halfW halfH clipped s

/-- The `for t` loop over the triangles of the draw call, ascending. -/
def batchLoop (rsq : ℚ → ℚ) (input : BatchIn) (halfW halfH : ℚ) :
    ℕ → RState → RState × ℕ
  | 0, s => (s, 0)
  | t+1, s =>
      let p := batchLoop rsq input halfW halfH t s
      let q := renderOneTriangle rsq p.1 input t halfW halfH
      (q.1, p.2 + q.2)

/-- `render_triangles_batch`: error before `init`, else run the triangle loop
over `index_count / 3` triangles and return the rendered count. -/
def render_triangles_batch (rsq : ℚ → ℚ) (s : RState) (input : BatchIn) :
    RState × Except String ℕ :=
  if s.fbAlloc = false then (s, Except.error "Renderer not initialized")
  else
    let p := batchLoop rsq input ((s.width : ℚ) * (1/2)) ((s.height : ℚ) * (1/2))
      (input.indexCount / 3) s
    (p.1, Except.ok p.2)

/-! ### Flat per-face shading lemmas -/

theorem rasterize_uniform_light (a : RasterArgs) (bufs : Bufs) (j : ℕ) :
    (rasterize_triangle_textured a bufs).1 j = bufs.1 j ∨
    ∃ c : ℕ, (rasterize_triangle_textured a bufs).1 j =
      clampByte ((c : ℚ) * a.lightFactor) := by
  unfold rasterize_triangle_textured
  split
  · exact Or.inl rfl
  · exact rasterize_fb_uniform_light a (pixList a) bufs j

theorem msaaLoop_uniform_light (a : RasterArgs) (msaa pc : ℕ) :
    ∀ (n : ℕ) (bufs : Bufs) (j : ℕ),
      (msaaLoop a msaa pc n bufs).1 j = bufs.1 j ∨
      ∃ c : ℕ, (msaaLoop a msaa pc n bufs).1 j =
        clampByte ((c : ℚ) * a.lightFactor) := by
  intro n
  induction n with
  | zero => intro bufs j; exact Or.inl rfl
  | succ n ih =>
    intro bufs j
    simp only [msaaLoop]
    rcases rasterize_uniform_light
        (sampleArgs a ((if msaa = 4 then msaa4_offsets else msaa16_offsets).getD n (0,0)).1
          ((if msaa = 4 then msaa4_offsets else msaa16_offsets).getD n (0,0)).2 (n * pc))
        (msaaLoop a msaa pc n bufs) j with h | h
    · rw [h]
      exact ih bufs j
    · exact Or.inr h

/-- Every byte `process_clipped_triangle` changes, in the main framebuffer or
any MSAA plane, equals `clampByte (c * lf)` for some channel value `c`: the
single light factor is applied uniformly. -/
theorem process_fb_uniform (s : RState) (cv0 cv1 cv2 : ClipVert)
    (lf halfW halfH : ℚ) (j : ℕ) :
    ((process_clipped_triangle s cv0 cv1 cv2 lf halfW halfH).1.fb j = s.fb j ∨
      ∃ c : ℕ, (process_clipped_triangle s cv0 cv1 cv2 lf halfW halfH).1.fb j =
        clampByte ((c : ℚ) * lf)) ∧
    ((process_clipped_triangle s cv0 cv1 cv2 lf halfW halfH).1.msaaFb j = s.msaaFb j ∨
      ∃ c : ℕ, (process_clipped_triangle s cv0 cv1 cv2 lf halfW halfH).1.msaaFb j =
        clampByte ((c : ℚ) * lf)) := by
  by_cases h1 : frustumCulled cv0 cv1 cv2
  · rw [process_clipped_triangle, if_pos h1]
    exact ⟨Or.inl rfl, Or.inl rfl⟩
  · by_cases h2 : s.enableBackfaceCulling = true ∧ signedArea2 cv0 cv1 cv2 halfW halfH < 0
    · rw [process_clipped_triangle, if_neg h1, if_pos h2]
      exact ⟨Or.inl rfl, Or.inl rfl⟩
    · by_cases h3 : s.msaa = 1
      · have hres : process_clipped_triangle s cv0 cv1 cv2 lf halfW halfH =
            ({ s with
                fb := (rasterize_triangle_textured
                  (processArgs s cv0 cv1 cv2 lf halfW halfH) (s.fb, s.depth)).1,
                depth := (rasterize_triangle_textured
                  (processArgs s cv0 cv1 cv2 lf halfW halfH) (s.fb, s.depth)).2 },
              true) := by
          rw [process_clipped_triangle, if_neg h1, if_neg h2]
          simp only [if_pos h3]
        rw [hres]
        exact ⟨rasterize_uniform_light (processArgs s cv0 cv1 cv2 lf halfW halfH)
          (s.fb, s.depth) j, Or.inl rfl⟩
      · have hres : process_clipped_triangle s cv0 cv1 cv2 lf halfW halfH =
            ({ s with
                msaaFb := (msaaLoop (processArgs s cv0 cv1 cv2 lf halfW halfH)
                  s.msaa (s.width * s.height) s.msaa (s.msaaFb, s.msaaDepth)).1,
                msaaDepth := (msaaLoop (processArgs s cv0 cv1 cv2 lf halfW halfH)
                  s.msaa (s.width * s.height) s.msaa (s.msaaFb, s.msaaDepth)).2 },
              true) := by
          rw [process_clipped_triangle, if_neg h1, if_neg h2]
          simp only [if_neg h3]
        rw [hres]
        exact ⟨Or.inl rfl,
          msaaLoop_uniform_light (processArgs s cv0 cv1 cv2 lf halfW halfH)
            s.msaa (s.width * s.height) s.msaa (s.msaaFb, s.msaaDepth) j⟩

theorem processTris_fb_uniform (lf halfW halfH : ℚ) :
    ∀ (l : List ClipVert) (s : RState) (j : ℕ),
      ((processTris lf halfW halfH l s).1.fb j = s.fb j ∨
        ∃ c : ℕ, (processTris lf halfW halfH l s).1.fb j = clampByte ((c : ℚ) * lf)) ∧
      ((processTris lf halfW halfH l s).1.msaaFb j = s.msaaFb j ∨
        ∃ c : ℕ, (processTris lf halfW halfH l s).1.msaaFb j = clampByte ((c : ℚ) * lf))
  | [], s, j => ⟨Or.inl rfl, Or.inl rfl⟩
  | [v], s, j => ⟨Or.inl rfl, Or.inl rfl⟩
  | [v, w], s, j => ⟨Or.inl rfl, Or.inl rfl⟩
  | v0 :: v1 :: v2 :: rest, s, j => by
      have hstep := process_fb_uniform s v0 v1 v2 lf halfW halfH j
      have hrest := processTris_fb_uniform lf halfW halfH rest
        (process_clipped_triangle s v0 v1 v2 lf halfW halfH).1 j
      simp only [processTris]
      constructor
      · rcases hrest.1 with h | h
        · rw [h]
          exact hstep.1
        · exact Or.inr h
      · rcases hrest.2 with h | h
        · rw [h]
          exact hstep.2
        · exact Or.inr h

/-- Dot product with the fixed directional light. -/
def dotLight (n : ℚ × ℚ × ℚ) : ℚ :=
  n.1 * lightDir.1 + n.2.1 * lightDir.2.1 + n.2.2 * lightDir.2.2

/-- Conclusion of the per-face shading claim (amended): for triangle `t` of a
draw call, (1) the light factor equals
`ambient + (1-ambient)·max(0, n·lightDir)` for the single face normal `n`;
(2) that normal is the `0.333333`-scaled sum of the supplied per-vertex
normals when `normal_count ≥ 3·(i2+1)`, (3) else the cross product of two
edge vectors; (4) it is normalized exactly when its squared length exceeds
`0.0001` and the inverse-square-root routine is exact on it; (5) every byte
the triangle writes (in the framebuffer or any MSAA plane) is
`clampByte (c * lightFactor)` for some channel value `c` — one light factor
applied uniformly across the whole triangle. -/
def FlatShadingConcl (rsq : ℚ → ℚ) (input : BatchIn) (s : RState) (t : ℕ)
    (halfW halfH : ℚ) : Prop :=
  let i0 := input.indices (t*3)
  let i1 := input.indices (t*3+1)
  let i2 := input.indices (t*3+2)
  (lightFactorOf rsq input i0 i1 i2 =
    ambientLight + (1 - ambientLight) *
      max 0 (dotLight (normalizedNormal rsq (faceNormal input i0 i1 i2)))) ∧
  ((i2 + 1) * 3 ≤ input.normalCount →
    faceNormal input i0 i1 i2 =
      ((input.normals (i0*3) + input.normals (i1*3) + input.normals (i2*3)) * (333333/1000000),
       (input.normals (i0*3+1) + input.normals (i1*3+1) + input.normals (i2*3+1)) * (333333/1000000),
       (input.normals (i0*3+2) + input.normals (i1*3+2) + input.normals (i2*3+2)) * (333333/1000000))) ∧
  (¬ (i2 + 1) * 3 ≤ input.normalCount →
    faceNormal input i0 i1 i2 =
      ((input.vertices (i1*3+1) - input.vertices (i0*3+1)) *
          (input.vertices (i2*3+2) - input.vertices (i0*3+2)) -
        (input.vertices (i1*3+2) - input.vertices (i0*3+2)) *
          (input.vertices (i2*3+1) - input.vertices (i0*3+1)),
       (input.vertices (i1*3+2) - input.vertices (i0*3+2)) *
          (input.vertices (i2*3) - input.vertices (i0*3)) -
        (input.vertices (i1*3) - input.vertices (i0*3)) *
          (input.vertices (i2*3+2) - input.vertices (i0*3+2)),
       (input.vertices (i1*3) - input.vertices (i0*3)) *
          (input.vertices (i2*3+1) - input.vertices (i0*3+1)) -
        (input.vertices (i1*3+1) - input.vertices (i0*3+1)) *
          (input.vertices (i2*3) - input.vertices (i0*3)))) ∧
  (1/10000 < normSq (faceNormal input i0 i1 i2) →
    rsq (normSq (faceNormal input i0 i1 i2)) * rsq (normSq (faceNormal input i0 i1 i2)) *
        normSq (faceNormal input i0 i1 i2) = 1 →
    normSq (normalizedNormal rsq (faceNormal input i0 i1 i2)) = 1) ∧
  ∀ j : ℕ,
    ((renderOneTriangle rsq s input t halfW halfH).1.fb j = s.fb j ∨
      ∃ c : ℕ, (renderOneTriangle rsq s input t halfW halfH).1.fb j =
        clampByte ((c : ℚ) * lightFactorOf rsq input i0 i1 i2)) ∧
    ((renderOneTriangle rsq s input t halfW halfH).1.msaaFb j = s.msaaFb j ∨
      ∃ c : ℕ, (renderOneTriangle rsq s input t halfW halfH).1.msaaFb j =
        clampByte ((c : ℚ) * lightFactorOf rsq input i0 i1 i2))

/-- C7 (amended): per-face flat shading with the claimed light-factor
formula; normalization is conditional on the squared length exceeding
`0.0001`. -/
theorem normSq_smul (n : ℚ × ℚ × ℚ) (r : ℚ) :
    normSq (n.1 * r, n.2.1 * r, n.2.2 * r) = r * r * normSq n := by
  simp only [normSq]
  ring

theorem if_neg_lt_eq_max (x : ℚ) : (if x < 0 then 0 else x) = max 0 x := by
  rcases lt_or_le x 0 with h | h
  · rw [if_pos h, max_eq_left (le_of_lt h)]
  · rw [if_neg (not_lt.mpr h), max_eq_right h]

/-- C7 (amended): per-face flat shading with the claimed light-factor
formula; normalization is conditional on the squared length exceeding
`0.0001`. -/
theorem render_triangles_flat_shading (rsq : ℚ → ℚ) (input : BatchIn)
    (s : RState) (t : ℕ) (halfW halfH : ℚ) :
    FlatShadingConcl rsq input s t halfW halfH := by
  refine ⟨?_, ?_, ?_, ?_, ?_⟩
  · simp only [lightFactorOf, dotLight]
    rw [if_neg_lt_eq_max]
  · intro hcov
    rw [faceNormal, if_pos hcov]
  · intro hcov
    rw [faceNormal, if_neg hcov]
  · intro hlen hr
    rw [normalizedNormal, if_pos hlen, normSq_smul, hr]
  · have key : ∀ (l : List ClipVert) (lf : ℚ) (j : ℕ),
        ((if l.length = 0 then (s, 0) else processTris lf halfW halfH l s).1.fb j
            = s.fb j ∨
          ∃ c : ℕ, (if l.length = 0 then (s, 0)
              else processTris lf halfW halfH l s).1.fb j =
            clampByte ((c : ℚ) * lf)) ∧
        ((if l.length = 0 then (s, 0) else processTris lf halfW halfH l s).1.msaaFb j
            = s.msaaFb j ∨
          ∃ c : ℕ, (if l.length = 0 then (s, 0)
              else processTris lf halfW halfH l s).1.msaaFb j =
            clampByte ((c : ℚ) * lf)) := by
      intro l lf j
      split
      · exact ⟨Or.inl rfl, Or.inl rfl⟩
      · exact processTris_fb_uniform lf halfW halfH l s j
    intro j
    simp only [renderOneTriangle]
    exact key _ _ j

/-- Counterexample input for the literal reading of C7: a normal buffer that
covers the triangle but holds all-zero normals. -/
def cexNormIn : BatchIn where
  vertices := fun _ => 0
  indices := fun i => i
  indexCount := 3
  mvp := fun _ => 0
  colors := fun _ => 0
  normals := fun _ => 0
  normalCount := 9
  uvs := none
  uvCount := 0

/-- C7 counterexample: with a covering normal buffer of all-zero normals the
face normal used for shading is `(0,0,0)` — its squared norm is 0, not 1, so
it is not normalized — and the light factor degenerates to the ambient term.
(The inverse-square-root routine is never consulted on this path; it is
instantiated with `id`.) -/
theorem face_normal_not_normalized :
    (cexNormIn.indices 2 + 1) * 3 ≤ cexNormIn.normalCount ∧
    normSq (normalizedNormal id (faceNormal cexNormIn (cexNormIn.indices 0)
      (cexNormIn.indices 1) (cexNormIn.indices 2))) = 0 ∧
    (0 : ℚ) ≠ 1 ∧
    lightFactorOf id cexNormIn (cexNormIn.indices 0) (cexNormIn.indices 1)
      (cexNormIn.indices 2) = ambientLight := by
  refine ⟨by norm_num [cexNormIn], ?_, by norm_num, ?_⟩
  · norm_num [cexNormIn, faceNormal, normSq, normalizedNormal]
  · norm_num [cexNormIn, faceNormal, normSq, normalizedNormal, lightFactorOf,
      lightDir, ambientLight]

/-- Witness state for `render_triangles_flat_shading`. -/
def batchWitnessState : RState :=
  { initialState with width := 4, height := 4, fbAlloc := true }

/-- Witness batch input: three vertices with normals `(0,0,1)`. -/
def wNormIn : BatchIn where
  vertices := fun i => if i = 3 then 1 else if i = 7 then 1 else 0
  indices := fun i => i
  indexCount := 3
  mvp := fun i => if i = 0 then 1 else if i = 5 then 1 else if i = 10 then 1
    else if i = 15 then 1 else 0
  colors := fun _ => 100
  normals := fun i => if i % 3 = 2 then 1 else 0
  uvs := none
  uvCount := 0
  normalCount := 9

/-- Exact inverse square root for the witness input's squared normal length. -/
def wRsq : ℚ → ℚ := fun _ => 1000000/999999

/-- Witness for `render_triangles_flat_shading` at a concrete input,
additionally discharging the normalization implication's hypotheses: the
witness face normal is `(0,0,0.999999)` and is exactly normalized. -/
theorem render_triangles_flat_shading_witness :
    FlatShadingConcl wRsq wNormIn batchWitnessState 0 2 2 ∧
    normSq (normalizedNormal wRsq (faceNormal wNormIn (wNormIn.indices 0)
      (wNormIn.indices 1) (wNormIn.indices 2))) = 1 := by
  have h := render_triangles_flat_shading wRsq wNormIn batchWitnessState 0 2 2
  refine ⟨h, ?_⟩
  have h4 := h.2.2.2.1
  simp only [wNormIn] at h4 ⊢
  apply h4
  · norm_num [wNormIn, faceNormal, normSq]
  · norm_num [wNormIn, faceNormal, normSq, wRsq]

/-! ### Lemmas about the MSAA resolve pass -/

theorem sampleColorSum_eq_sum (mFb : ℕ → ℕ) (pc i c : ℕ) :
    ∀ n, sampleColorSum mFb pc i c n =
      ∑ samp ∈ Finset.range n, mFb ((samp * pc + i) * 3 + c) := by
  intro n
  induction n with
  | zero => rfl
  | succ n ih => rw [sampleColorSum, ih, Finset.sum_range_succ]

theorem sampleMinDepth_le_one (mD : ℕ → ℚ) (pc i : ℕ) :
    ∀ n, sampleMinDepth mD pc i n ≤ 1 := by
  intro n
  induction n with
  | zero => exact le_refl 1
  | succ n ih =>
    rw [sampleMinDepth]
    split
    · exact le_trans (le_of_lt (by assumption)) ih
    · exact ih

theorem sampleMinDepth_le (mD : ℕ → ℚ) (pc i : ℕ) :
    ∀ n, ∀ k < n, sampleMinDepth mD pc i n ≤ mD (k * pc + i) := by
  intro n
  induction n with
  | zero => intro k hk; omega
  | succ n ih =>
    intro k hk
    rw [sampleMinDepth]
    rcases Nat.lt_succ_iff_lt_or_eq.mp hk with h | rfl
    · split
      · exact le_trans (le_of_lt (by assumption)) (ih k h)
      · exact ih k h
    · split
      · exact le_refl _
      · exact not_lt.mp (by assumption)

theorem sampleMinDepth_mem (mD : ℕ → ℚ) (pc i : ℕ) :
    ∀ n, sampleMinDepth mD pc i n = 1 ∨
      ∃ k < n, sampleMinDepth mD pc i n = mD (k * pc + i) := by
  intro n
  induction n with
  | zero => exact Or.inl rfl
  | succ n ih =>
    rw [sampleMinDepth]
    split
    · exact Or.inr ⟨n, Nat.lt_succ_self n, rfl⟩
    · rcases ih with h | ⟨k, hk, hh⟩
      · exact Or.inl h
      · exact Or.inr ⟨k, Nat.lt_succ_of_lt hk, hh⟩

theorem resolvePixel_at (mFb : ℕ → ℕ) (mD : ℕ → ℚ) (pc msaa i : ℕ) (bufs : Bufs) :
    (resolvePixel mFb mD pc msaa i bufs).1 (i*3) = sampleColorSum mFb pc i 0 msaa / msaa ∧
    (resolvePixel mFb mD pc msaa i bufs).1 (i*3+1) = sampleColorSum mFb pc i 1 msaa / msaa ∧
    (resolvePixel mFb mD pc msaa i bufs).1 (i*3+2) = sampleColorSum mFb pc i 2 msaa / msaa ∧
    (resolvePixel mFb mD pc msaa i bufs).2 i = sampleMinDepth mD pc i msaa := by
  refine ⟨?_, ?_, ?_, ?_⟩ <;> simp only [resolvePixel]
  · rw [Function.update_noteq (by omega), Function.update_noteq (by omega),
      Function.update_same]
  · rw [Function.update_noteq (by omega), Function.update_same]
  · rw [Function.update_same]
  · rw [Function.update_same]

theorem resolvePixel_fb_out (mFb : ℕ → ℕ) (mD : ℕ → ℚ) (pc msaa i : ℕ) (bufs : Bufs)
    (j : ℕ) (hj : j ≠ i*3 ∧ j ≠ i*3+1 ∧ j ≠ i*3+2) :
    (resolvePixel mFb mD pc msaa i bufs).1 j = bufs.1 j := by
  simp only [resolvePixel]
  rw [Function.update_noteq hj.2.2, Function.update_noteq hj.2.1,
    Function.update_noteq hj.1]

theorem resolvePixel_depth_out (mFb : ℕ → ℕ) (mD : ℕ → ℚ) (pc msaa i : ℕ)
    (bufs : Bufs) (j : ℕ) (hj : j ≠ i) :
    (resolvePixel mFb mD pc msaa i bufs).2 j = bufs.2 j := by
  simp only [resolvePixel]
  rw [Function.update_noteq hj]

theorem resolveCols_at (mFb : ℕ → ℕ) (mD : ℕ → ℚ) (pc msaa rs : ℕ) (bufs : Bufs) :
    ∀ n x, x < n →
      (resolveCols mFb mD pc msaa rs n bufs).1 ((rs+x)*3) =
        sampleColorSum mFb pc (rs+x) 0 msaa / msaa ∧
      (resolveCols mFb mD pc msaa rs n bufs).1 ((rs+x)*3+1) =
        sampleColorSum mFb pc (rs+x) 1 msaa / msaa ∧
      (resolveCols mFb mD pc msaa rs n bufs).1 ((rs+x)*3+2) =
        sampleColorSum mFb pc (rs+x) 2 msaa / msaa ∧
      (resolveCols mFb mD pc msaa rs n bufs).2 (rs+x) =
        sampleMinDepth mD pc (rs+x) msaa := by
  intro n
  induction n with
  | zero => intro x hx; omega
  | succ n ih =>
    intro x hx
    simp only [resolveCols]
    rcases Nat.lt_succ_iff_lt_or_eq.mp hx with h | rfl
    · obtain ⟨ih1, ih2, ih3, ih4⟩ := ih x h
      have hne : rs + x ≠ rs + n := by omega
      obtain ⟨f1, f2, f3⟩ := (mul3_ne_forms hne).1
      obtain ⟨f4, f5, f6⟩ := (mul3_ne_forms hne).2.1
      obtain ⟨f7, f8, f9⟩ := (mul3_ne_forms hne).2.2
      refine ⟨?_, ?_, ?_, ?_⟩
      · exact (resolvePixel_fb_out mFb mD pc msaa (rs+n) _ _ ⟨f1, f2, f3⟩).trans ih1
      · exact (resolvePixel_fb_out mFb mD pc msaa (rs+n) _ _ ⟨f4, f5, f6⟩).trans ih2
      · exact (resolvePixel_fb_out mFb mD pc msaa (rs+n) _ _ ⟨f7, f8, f9⟩).trans ih3
      · exact (resolvePixel_depth_out mFb mD pc msaa (rs+n) _ _ hne).trans ih4
    · exact resolvePixel_at mFb mD pc msaa (rs+x) _

theorem resolveCols_fb_out (mFb : ℕ → ℕ) (mD : ℕ → ℚ) (pc msaa rs : ℕ) (bufs : Bufs)
    (j : ℕ) : ∀ n, (∀ x < n, j ≠ (rs+x)*3 ∧ j ≠ (rs+x)*3+1 ∧ j ≠ (rs+x)*3+2) →
      (resolveCols mFb mD pc msaa rs n bufs).1 j = bufs.1 j := by
  intro n
  induction n with
  | zero => intro _; rfl
  | succ n ih =>
    intro hj
    simp only [resolveCols]
    exact (resolvePixel_fb_out mFb mD pc msaa (rs+n) _ _
        (hj n (Nat.lt_succ_self n))).trans
      (ih fun x hx => hj x (Nat.lt_succ_of_lt hx))

theorem resolveCols_depth_out (mFb : ℕ → ℕ) (mD : ℕ → ℚ) (pc msaa rs : ℕ)
    (bufs : Bufs) (j : ℕ) : ∀ n, (∀ x < n, j ≠ rs+x) →
      (resolveCols mFb mD pc msaa rs n bufs).2 j = bufs.2 j := by
  intro n
  induction n with
  | zero => intro _; rfl
  | succ n ih =>
    intro hj
    simp only [resolveCols]
    exact (resolvePixel_depth_out mFb mD pc msaa (rs+n) _ _
        (hj n (Nat.lt_succ_self n))).trans
      (ih fun x hx => hj x (Nat.lt_succ_of_lt hx))

theorem resolveRowsLoop_at (mFb : ℕ → ℕ) (mD : ℕ → ℚ) (pc msaa w startRow : ℕ)
    (bufs : Bufs) :
    ∀ n, ∀ k < n, ∀ x < w,
      (resolveRowsLoop mFb mD pc msaa w startRow n bufs).1
          (((startRow+k)*w+x)*3) =
        sampleColorSum mFb pc ((startRow+k)*w+x) 0 msaa / msaa ∧
      (resolveRowsLoop mFb mD pc msaa w startRow n bufs).1
          (((startRow+k)*w+x)*3+1) =
        sampleColorSum mFb pc ((startRow+k)*w+x) 1 msaa / msaa ∧
      (resolveRowsLoop mFb mD pc msaa w startRow n bufs).1
          (((startRow+k)*w+x)*3+2) =
        sampleColorSum mFb pc ((startRow+k)*w+x) 2 msaa / msaa ∧
      (resolveRowsLoop mFb mD pc msaa w startRow n bufs).2
          ((startRow+k)*w+x) =
        sampleMinDepth mD pc ((startRow+k)*w+x) msaa := by
  intro n
  induction n with
  | zero => intro k hk; omega
  | succ n ih =>
    intro k hk x hx
    simp only [resolveRowsLoop]
    rcases Nat.lt_succ_iff_lt_or_eq.mp hk with hkn | rfl
    · obtain ⟨ih1, ih2, ih3, ih4⟩ := ih k hkn x hx
      have hbase : ∀ x' < w, (startRow+k)*w+x ≠ (startRow+n)*w+x' := by
        intro x' hx'
        exact rowcol_ne w x x' (startRow+k) (startRow+n) hx hx' (by omega)
      refine ⟨?_, ?_, ?_, ?_⟩
      · refine (resolveCols_fb_out mFb mD pc msaa ((startRow+n)*w) _ _ w ?_).trans ih1
        intro x' hx'; exact (mul3_ne_forms (hbase x' hx')).1
      · refine (resolveCols_fb_out mFb mD pc msaa ((startRow+n)*w) _ _ w ?_).trans ih2
        intro x' hx'; exact (mul3_ne_forms (hbase x' hx')).2.1
      · refine (resolveCols_fb_out mFb mD pc msaa ((startRow+n)*w) _ _ w ?_).trans ih3
        intro x' hx'; exact (mul3_ne_forms (hbase x' hx')).2.2
      · refine (resolveCols_depth_out mFb mD pc msaa ((startRow+n)*w) _ _ w ?_).trans ih4
        intro x' hx'; exact hbase x' hx'
    · exact resolveCols_at mFb mD pc msaa ((startRow+k)*w) _ w x hx

/-- C8: with MSAA active and all stored sample depths at most `1.0` (an
invariant of all reachable buffer states, since samples are only written when
strictly decreasing from the initial `1.0`), `resolveMSAA` writes, for every
pixel, each final color channel as the truncating integer average of that
channel over the samples, the final depth as the minimum sample depth, and a
channel that is uniform across samples resolves to exactly that value. -/
theorem resolve_msaa_spec (s : RState) (hfb : s.fbAlloc = true)
    (hma : s.msaaAlloc = true) (hm : 1 < s.msaa)
    (hd : ∀ samp < s.msaa, ∀ i < s.width * s.height,
        s.msaaDepth (samp * (s.width * s.height) + i) ≤ 1) :
    ∀ i < s.width * s.height,
      (∀ c < 3, (render_resolve_msaa s).fb (i*3+c) =
        (∑ samp ∈ Finset.range s.msaa,
          s.msaaFb ((samp * (s.width * s.height) + i) * 3 + c)) / s.msaa) ∧
      (∀ samp < s.msaa, (render_resolve_msaa s).depth i ≤
        s.msaaDepth (samp * (s.width * s.height) + i)) ∧
      (∃ samp < s.msaa, (render_resolve_msaa s).depth i =
        s.msaaDepth (samp * (s.width * s.height) + i)) ∧
      (∀ v : ℕ, ∀ c < 3,
        (∀ samp < s.msaa, s.msaaFb ((samp * (s.width * s.height) + i) * 3 + c) = v) →
        (render_resolve_msaa s).fb (i*3+c) = v) := by
  intro i hi
  have hgeq : ¬ (s.fbAlloc = false ∨ s.msaa ≤ 1 ∨ s.msaaAlloc = false) := by
    simp [hfb, hma]; omega
  have hgeq2 : ¬ (s.fbAlloc = false ∨ s.msaaAlloc = false ∨ s.msaa ≤ 1) := by
    simp [hfb, hma]; omega
  have hw : 0 < s.width := by
    rcases Nat.eq_zero_or_pos s.width with hz | hp
    · rw [hz] at hi; omega
    · exact hp
  have hk : i / s.width < s.height := by
    rw [Nat.div_lt_iff_lt_mul hw]
    calc i < s.width * s.height := hi
    _ = s.height * s.width := Nat.mul_comm _ _
  have hx : i % s.width < s.width := Nat.mod_lt _ hw
  have hieq : (0 + i / s.width) * s.width + i % s.width = i := by
    rw [Nat.zero_add, Nat.mul_comm, Nat.div_add_mod]
  have hres : render_resolve_msaa s = do_msaa_resolve_rows s 0 s.height := by
    rw [render_resolve_msaa, if_neg hgeq]
  have hloop := resolveRowsLoop_at s.msaaFb s.msaaDepth (s.width * s.height) s.msaa
    s.width 0 (s.fb, s.depth) s.height (i / s.width) hk (i % s.width) hx
  rw [hieq] at hloop
  obtain ⟨hl0, hl1, hl2, hl3⟩ := hloop
  have hfb0 : (render_resolve_msaa s).fb = (resolveRowsLoop s.msaaFb s.msaaDepth
      (s.width * s.height) s.msaa s.width 0 s.height (s.fb, s.depth)).1 := by
    rw [hres, do_msaa_resolve_rows, if_neg hgeq2]
    simp [Nat.min_self]
  have hdep0 : (render_resolve_msaa s).depth = (resolveRowsLoop s.msaaFb s.msaaDepth
      (s.width * s.height) s.msaa s.width 0 s.height (s.fb, s.depth)).2 := by
    rw [hres, do_msaa_resolve_rows, if_neg hgeq2]
    simp [Nat.min_self]
  have hmz : s.msaa ≠ 0 := by omega
  refine ⟨?_, ?_, ?_, ?_⟩
  · intro c hc
    interval_cases c
    · rw [Nat.add_zero, hfb0, hl0, sampleColorSum_eq_sum]
    · rw [hfb0, hl1, sampleColorSum_eq_sum]
    · rw [hfb0, hl2, sampleColorSum_eq_sum]
  · intro samp hsamp
    rw [hdep0, hl3]
    exact sampleMinDepth_le s.msaaDepth (s.width * s.height) i s.msaa samp hsamp
  · rcases sampleMinDepth_mem s.msaaDepth (s.width * s.height) i s.msaa with h1 | ⟨k, hks, hkv⟩
    · -- the fold stayed at 1.0; with all sample depths ≤ 1 they must all equal 1
      refine ⟨0, by omega, ?_⟩
      rw [hdep0, hl3, h1]
      have hle := sampleMinDepth_le s.msaaDepth (s.width * s.height) i s.msaa 0 (by omega)
      rw [h1] at hle
      exact le_antisymm (hd 0 (by omega) i hi) hle |>.symm
    · exact ⟨k, hks, by rw [hdep0, hl3, hkv]⟩
  · intro v c hc hall
    have hsum : sampleColorSum s.msaaFb (s.width * s.height) i c s.msaa = s.msaa * v := by
      rw [sampleColorSum_eq_sum]
      rw [Finset.sum_congr rfl fun samp hsamp =>
        hall samp (Finset.mem_range.mp hsamp)]
      simp [Finset.sum_const, Finset.card_range, Nat.mul_comm]
    interval_cases c
    · rw [Nat.add_zero, hfb0, hl0, hsum, Nat.mul_div_cancel_left v (by omega)]
    · rw [hfb0, hl1, hsum, Nat.mul_div_cancel_left v (by omega)]
    · rw [hfb0, hl2, hsum, Nat.mul_div_cancel_left v (by omega)]

/-- Witness state for `resolve_msaa_spec`: a 1×1 framebuffer with 4 samples,
uniform color 9 and sample depths 1/2. -/
def resolveWitnessState : RState :=
  { initialState with
      width := 1, height := 1, msaa := 4, fbAlloc := true, msaaAlloc := true,
      msaaFb := fun _ => 9, msaaDepth := fun _ => 1/2 }

/-- Witness for `resolve_msaa_spec` at a concrete state. -/
theorem resolve_msaa_spec_witness :
    resolveWitnessState.fbAlloc = true ∧ resolveWitnessState.msaaAlloc = true ∧
    1 < resolveWitnessState.msaa ∧
    (render_resolve_msaa resolveWitnessState).fb 0 = 9 ∧
    (∃ samp < resolveWitnessState.msaa,
      (render_resolve_msaa resolveWitnessState).depth 0 =
        resolveWitnessState.msaaDepth
          (samp * (resolveWitnessState.width * resolveWitnessState.height) + 0)) := by
  have hm : 1 < resolveWitnessState.msaa := by norm_num [resolveWitnessState, initialState]
  have hd : ∀ samp < resolveWitnessState.msaa,
      ∀ i < resolveWitnessState.width * resolveWitnessState.height,
      resolveWitnessState.msaaDepth
        (samp * (resolveWitnessState.width * resolveWitnessState.height) + i) ≤ 1 := by
    intro samp _ i _
    norm_num [resolveWitnessState, initialState]
  have h := resolve_msaa_spec resolveWitnessState rfl rfl hm hd 0
    (by norm_num [resolveWitnessState, initialState])
  refine ⟨rfl, rfl, hm, ?_, h.2.2.1⟩
  have := h.2.2.2 9 0 (by norm_num) (fun samp _ => rfl)
  simpa using this

/-- Witness state for `render_clear_spec`: a 2×2 framebuffer with 4× MSAA. -/
def clearWitnessState : RState :=
  { initialState with
      width := 2, height := 2, msaa := 4, fbAlloc := true, msaaAlloc := true }

/-- Witness for `render_clear_spec` at a concrete state. -/
theorem render_clear_spec_witness :
    clearWitnessState.fbAlloc = true ∧
    (render_clear clearWitnessState 10 20 30).1.fb 0 = 10 ∧
    (render_clear clearWitnessState 10 20 30).1.fb (3*3+2) = 30 ∧
    (render_clear clearWitnessState 10 20 30).1.depth 3 = 1 ∧
    (render_clear clearWitnessState 10 20 30).1.msaaFb ((3*4+3)*3+1) = 20 ∧
    (render_clear clearWitnessState 10 20 30).1.msaaDepth (3*4+3) = 1 := by
  have h := render_clear_spec clearWitnessState 10 20 30 rfl
  have hm : (1:ℕ) < clearWitnessState.msaa := by norm_num [clearWitnessState, initialState]
  have hwh : clearWitnessState.width * clearWitnessState.height = 4 := rfl
  refine ⟨rfl, ?_, ?_, ?_, ?_, ?_⟩
  · have := (h.1 0 (by rw [hwh]; norm_num)).1
    simpa using this
  · have := (h.1 3 (by rw [hwh]; norm_num)).2.2.1
    simpa using this
  · exact (h.1 3 (by rw [hwh]; norm_num)).2.2.2
  · have := (h.2 hm rfl 3 (by norm_num [clearWitnessState, initialState])
      3 (by rw [hwh]; norm_num)).2.1
    rw [hwh] at this
    simpa using this
  · have := (h.2 hm rfl 3 (by norm_num [clearWitnessState, initialState])
      3 (by rw [hwh]; norm_num)).2.2.2
    rw [hwh] at this
    simpa using this

end Renderer

namespace Renderer

/-! ### C5: `render_init` validation and sample-count coercion -/

/-- C5: `render_init` rejects width/height outside `[1,4096]` with an error
and leaves the state untouched (the check precedes all frees/allocations); for
valid dimensions it succeeds returning `true`, and a sample count outside
`{1,4,16}` is silently coerced to 1. -/
theorem render_init_spec (s : RState) (w h m : ℤ) :
    ((w < 1 ∨ 4096 < w ∨ h < 1 ∨ 4096 < h) →
      render_init s w h m = (s, Except.error "Invalid dimensions (must be 1-4096)")) ∧
    ((1 ≤ w ∧ w ≤ 4096 ∧ 1 ≤ h ∧ h ≤ 4096) →
      (render_init s w h m).2 = Except.ok true ∧
      (¬ (m = 1 ∨ m = 4 ∨ m = 16) → (render_init s w h m).1.msaa = 1) ∧
      ((m = 1 ∨ m = 4 ∨ m = 16) → ((render_init s w h m).1.msaa : ℤ) = m)) := by
  constructor
  · intro hbad
    have hc : w ≤ 0 ∨ h ≤ 0 ∨ 4096 < w ∨ 4096 < h := by omega
    simp [render_init, hc]
  · rintro ⟨hw1, hw2, hh1, hh2⟩
    have hc : ¬ (w ≤ 0 ∨ h ≤ 0 ∨ 4096 < w ∨ 4096 < h) := by omega
    refine ⟨by simp [render_init, hc], ?_, ?_⟩
    · intro hm
      simp [render_init, hc, hm]
    · intro hm
      have h1 : (1:ℤ) ≤ m := by rcases hm with rfl | rfl | rfl <;> norm_num
      simp [render_init, hc, if_pos hm, Int.toNat_of_nonneg (by omega : (0:ℤ) ≤ m)]

/-- Witness for `render_init_spec`: a rejected call leaves the initial state
untouched, and a valid call with sample count 7 coerces it to 1. -/
theorem render_init_spec_witness :
    (render_init initialState (-3) 5 4 =
      (initialState, Except.error "Invalid dimensions (must be 1-4096)")) ∧
    ((render_init initialState 10 20 7).2 = Except.ok true ∧
      (render_init initialState 10 20 7).1.msaa = 1) := by
  refine ⟨(render_init_spec initialState (-3) 5 4).1 (by norm_num), ?_, ?_⟩
  · exact ((render_init_spec initialState 10 20 7).2 (by norm_num)).1
  · exact ((render_init_spec initialState 10 20 7).2 (by norm_num)).2.1 (by norm_num)

/-! ### C6: `render_cleanup` -/

/-- Counterexample state for the literal reading of C6: a state with a bound
9×7 texture and 4× MSAA. -/
def cexCleanupState : RState :=
  { initialState with
      width := 3, height := 3, msaa := 4, texW := 7, texH := 9,
      fbAlloc := true, msaaAlloc := true, texBound := true,
      texBufAlloc := true, texBufSize := 189 }

/-- C6 counterexample: after `render_cleanup` the sample count equals 1 (not
0) and the texture width/height keep their previous nonzero values, so "all
size state ... equal 0" is false. -/
theorem cleanup_not_all_zero :
    (render_cleanup cexCleanupState).msaa ≠ 0 ∧
    (render_cleanup cexCleanupState).texW ≠ 0 ∧
    (render_cleanup cexCleanupState).texH ≠ 0 := by
  refine ⟨?_, ?_, ?_⟩ <;> simp [render_cleanup, cexCleanupState, initialState]

/-- C6 (amended): `render_cleanup` releases all buffers and the texture copy
(all pointers null), resets width, height and the texture buffer capacity to
0 and the sample count to 1, leaves the texture width/height fields
unchanged, and is idempotent. -/
theorem render_cleanup_spec (s : RState) :
    (render_cleanup s).fbAlloc = false ∧ (render_cleanup s).msaaAlloc = false ∧
    (render_cleanup s).texBound = false ∧ (render_cleanup s).texBufAlloc = false ∧
    (render_cleanup s).width = 0 ∧ (render_cleanup s).height = 0 ∧
    (render_cleanup s).msaa = 1 ∧ (render_cleanup s).texBufSize = 0 ∧
    (render_cleanup s).texW = s.texW ∧ (render_cleanup s).texH = s.texH ∧
    render_cleanup (render_cleanup s) = render_cleanup s :=
  ⟨rfl, rfl, rfl, rfl, rfl, rfl, rfl, rfl, rfl, rfl, rfl⟩

end Renderer
